import Mathlib

/-!
Shallow embedding of the nostr-research-relay core (TypeScript sources under
`src/`), together with proofs about its event admission, pricing, payment
gating, publication state machine, subscription matching and broadcast logic.

Conventions used throughout:
* TypeScript strings are Lean `String`s; where serialization needs to be
  analysed character by character, a string is viewed as its list of Unicode
  code points (`strCodes`), which is a faithful bijective view.
* JavaScript numbers holding sizes, timestamps, kinds and sat amounts are
  modelled as `Nat` (all are non-negative integers in the program).
* `parseInt` of a configuration string can produce `NaN` for a non-numeric
  value; a JS number that may be `NaN` is modelled as `Option Nat` with
  `none` standing for `NaN`, and the JS comparisons involving it (which are
  false on `NaN`) are modelled explicitly.
* The SHA-256 digest (node `crypto`, external to the repository) is modelled
  from the spec as an arbitrary digest function `H` over the serialized
  code-point sequence; cryptographic collision resistance is idealized as
  injectivity of `H`, a hypothesis of the theorems that need it.
-/

namespace Relay

/-! ## Code-point view of strings -/

/-- The list of Unicode code points of a string. -/
def strCodes (s : String) : List Nat := s.data.map Char.toNat

theorem char_toNat_injective : Function.Injective Char.toNat := by
  intro a b h
  have hv : a.val = b.val := UInt32.ext h
  exact Char.ext hv

theorem strCodes_injective : Function.Injective strCodes := by
  intro a b h
  have hd : a.data = b.data := List.map_injective_iff.mpr char_toNat_injective h
  cases a; cases b; simp_all

/-! ## JSON serialization (`JSON.stringify` of the fixed event array)

`src/utils/crypto.ts`, `getEventHash`: the event hash is the SHA-256 of
`JSON.stringify([0, event.pubkey, event.created_at, event.kind, event.tags,
event.content])`.  The JSON string escaping below follows `JSON.stringify`:
`"` and `\` get a backslash escape, the control characters BS HT LF FF CR get
their short escapes, all other control characters below U+0020 get a
`\u00XX` escape with lowercase hex, and every other character is emitted
verbatim. -/

/-- Lowercase hex digit code for a value below 16. -/
def hexDigit (d : Nat) : Nat := if d < 10 then 48 + d else 87 + d

/-- JSON escape of one code point, per `JSON.stringify`. -/
def escCode (c : Nat) : List Nat :=
  if c = 34 then [92, 34]
  else if c = 92 then [92, 92]
  else if c = 8 then [92, 98]
  else if c = 9 then [92, 116]
  else if c = 10 then [92, 110]
  else if c = 12 then [92, 102]
  else if c = 13 then [92, 114]
  else if c < 32 then [92, 117, 48, 48, hexDigit (c / 16), hexDigit (c % 16)]
  else [c]

/-- JSON escape of a full code-point sequence. -/
def escape (s : List Nat) : List Nat := s.flatMap escCode

/-- A JSON string literal: opening quote, escaped body, closing quote. -/
def quoteCodes (s : List Nat) : List Nat := 34 :: escape s ++ [34]

/-- Decimal digit codes of a natural number, most significant first
(`fuel` bounds the recursion depth; any `fuel > n` gives the digits). -/
def natToDecAux : Nat → Nat → List Nat
  | 0, _ => []
  | fuel + 1, n =>
    if n < 10 then [48 + n] else natToDecAux fuel (n / 10) ++ [48 + n % 10]

/-- Decimal representation of a natural number, as JSON prints it. -/
def natToDec (n : Nat) : List Nat := natToDecAux (n + 1) n

/-- Non-first elements of a JSON array, each preceded by a comma (code 44). -/
def sepBody (f : α → List Nat) : List α → List Nat
  | [] => []
  | x :: xs => 44 :: (f x ++ sepBody f xs)

/-- Body of a JSON array whose elements are serialized by `f`:
comma-separated elements. -/
def listBody (f : α → List Nat) : List α → List Nat
  | [] => []
  | x :: xs => f x ++ sepBody f xs

/-- `JSON.stringify` of an array, elements serialized by `f`. -/
def listSer (f : α → List Nat) (l : List α) : List Nat :=
  91 :: listBody f l ++ [93]

/-- Serialization of one tag (an array of strings). -/
def tagSer (t : List String) : List Nat := listSer (fun s => quoteCodes (strCodes s)) t

/-- Serialization of the tags field (an array of arrays of strings). -/
def tagsSer (tags : List (List String)) : List Nat := listSer tagSer tags

/-! ## Events (`src/types/nostr.ts` `NostrEvent`) -/

/-- A Nostr event as stored and exchanged by the relay. -/
structure NostrEvent where
  id : String
  pubkey : String
  created_at : Nat
  kind : Nat
  tags : List (List String)
  content : String
  sig : String
deriving Repr, DecidableEq

/-- `JSON.stringify([0, event.pubkey, event.created_at, event.kind,
event.tags, event.content])` from `getEventHash`, as a code-point list.
The `id` and `sig` fields do not participate. -/
def serializeEvent (e : NostrEvent) : List Nat :=
  [91, 48, 44] ++ quoteCodes (strCodes e.pubkey) ++ [44] ++
    natToDec e.created_at ++ [44] ++ natToDec e.kind ++ [44] ++
    tagsSer e.tags ++ [44] ++ quoteCodes (strCodes e.content) ++ [93]

/-- `src/utils/crypto.ts` `getEventHash`: the digest `H` (modelling SHA-256
hex) of the serialized event. -/
def getEventHash (H : List Nat → String) (e : NostrEvent) : String :=
  H (serializeEvent e)

/-- `src/utils/crypto.ts` `validateEventSignature`: true iff the stated id
equals the recomputed hash. -/
def validateEventSignature (H : List Nat → String) (e : NostrEvent) : Bool :=
  e.id == getEventHash H e

/-- `src/utils/crypto.ts` `calculateContentSize`: UTF-8 byte length. -/
def calculateContentSize (content : String) : Nat := content.utf8ByteSize

/-! ## Injectivity of the serialization

The JSON serialization above is prefix-deterministic: a serialized fragment
followed by arbitrary data determines the fragment and the remainder.  This
yields injectivity of `serializeEvent` in all serialized fields, which is
what makes hash verification sensitive to any field change. -/

/-- Inverse of the two-character short escapes. -/
def shortUnesc (e : Nat) : Nat :=
  if e = 34 then 34 else if e = 92 then 92 else if e = 98 then 8
  else if e = 116 then 9 else if e = 110 then 10 else if e = 102 then 12
  else 13

theorem hexDigit_inj {d1 d2 : Nat} (h1 : d1 < 16) (h2 : d2 < 16)
    (h : hexDigit d1 = hexDigit d2) : d1 = d2 := by
  unfold hexDigit at h
  split_ifs at h <;> omega

/-- Every code point falls into one of three escape classes. -/
theorem escCode_cases (c : Nat) :
    (escCode c = [c] ∧ c ≠ 92 ∧ c ≠ 34 ∧ 32 ≤ c)
    ∨ (∃ e, escCode c = [92, e] ∧ e ≠ 117 ∧ shortUnesc e = c)
    ∨ (escCode c = [92, 117, 48, 48, hexDigit (c / 16), hexDigit (c % 16)]
        ∧ c < 32) := by
  unfold escCode
  split_ifs with h1 h2 h3 h4 h5 h6 h7 h8
  · exact Or.inr (Or.inl ⟨34, by simp [h1], by decide, by simp [shortUnesc, h1]⟩)
  · exact Or.inr (Or.inl ⟨92, by simp [h2], by decide, by simp [shortUnesc, h2]⟩)
  · exact Or.inr (Or.inl ⟨98, by simp [h3], by decide, by simp [shortUnesc, h3]⟩)
  · exact Or.inr (Or.inl ⟨116, by simp [h4], by decide, by simp [shortUnesc, h4]⟩)
  · exact Or.inr (Or.inl ⟨110, by simp [h5], by decide, by simp [shortUnesc, h5]⟩)
  · exact Or.inr (Or.inl ⟨102, by simp [h6], by decide, by simp [shortUnesc, h6]⟩)
  · exact Or.inr (Or.inl ⟨114, by simp [h7], by decide, by simp [shortUnesc, h7]⟩)
  · exact Or.inr (Or.inr ⟨rfl, h8⟩)
  · exact Or.inl ⟨rfl, h2, h1, by omega⟩

/-- Prefix determinism of a single escaped code point. -/
theorem escCode_pd {c1 c2 : Nat} {x y : List Nat}
    (h : escCode c1 ++ x = escCode c2 ++ y) : c1 = c2 ∧ x = y := by
  rcases escCode_cases c1 with ⟨e1, n921, n341, ge1⟩ | ⟨s1, e1, ne1, un1⟩ | ⟨e1, lt1⟩ <;>
    rcases escCode_cases c2 with ⟨e2, n922, n342, ge2⟩ | ⟨s2, e2, ne2, un2⟩ | ⟨e2, lt2⟩ <;>
      rw [e1, e2] at h <;>
        simp only [List.cons_append, List.nil_append, List.cons.injEq] at h
  · exact ⟨h.1, h.2⟩
  · omega
  · omega
  · omega
  · obtain ⟨-, he, hxy⟩ := h
    subst he
    exact ⟨un1 ▸ un2 ▸ rfl, hxy⟩
  · omega
  · omega
  · omega
  · obtain ⟨-, -, -, -, hh, hl, hxy⟩ := h
    have hdiv : c1 / 16 = c2 / 16 := hexDigit_inj (by omega) (by omega) hh
    have hmod : c1 % 16 = c2 % 16 := hexDigit_inj (by omega) (by omega) hl
    exact ⟨by omega, hxy⟩

/-- The escape of any code point starts with a code other than `"`. -/
theorem escCode_head_ne (c : Nat) :
    ∃ h t, escCode c = h :: t ∧ h ≠ 34 := by
  rcases escCode_cases c with ⟨e1, -, n34, -⟩ | ⟨s, e1, -, -⟩ | ⟨e1, -⟩
  · exact ⟨c, [], e1, n34⟩
  · exact ⟨92, [s], e1, by decide⟩
  · exact ⟨92, _, e1, by decide⟩

/-- Prefix determinism of an escaped string body followed by its closing
quote. -/
theorem escape_pd : ∀ s1 s2 : List Nat, ∀ r1 r2 : List Nat,
    escape s1 ++ 34 :: r1 = escape s2 ++ 34 :: r2 → s1 = s2 ∧ r1 = r2 := by
  intro s1
  induction s1 with
  | nil =>
    intro s2 r1 r2 h
    cases s2 with
    | nil => simpa [escape] using h
    | cons c2 t2 =>
      exfalso
      obtain ⟨hd, tl, he, hne⟩ := escCode_head_ne c2
      simp only [escape, List.flatMap_cons, List.flatMap_nil, List.nil_append,
        List.append_assoc] at h
      rw [he] at h
      simp only [List.cons_append, List.cons.injEq] at h
      exact hne h.1.symm
  | cons c1 t1 ih =>
    intro s2 r1 r2 h
    cases s2 with
    | nil =>
      exfalso
      obtain ⟨hd, tl, he, hne⟩ := escCode_head_ne c1
      simp only [escape, List.flatMap_cons, List.flatMap_nil, List.nil_append,
        List.append_assoc] at h
      rw [he] at h
      simp only [List.cons_append, List.cons.injEq] at h
      exact hne h.1
    | cons c2 t2 =>
      simp only [escape, List.flatMap_cons, List.append_assoc] at h
      obtain ⟨hc, ht⟩ := escCode_pd h
      subst hc
      obtain ⟨h1, h2⟩ := ih t2 r1 r2 (by simpa [escape] using ht)
      exact ⟨by rw [h1], h2⟩

/-- Prefix determinism of a JSON string literal. -/
theorem quoteCodes_pd {s1 s2 r1 r2 : List Nat}
    (h : quoteCodes s1 ++ r1 = quoteCodes s2 ++ r2) : s1 = s2 ∧ r1 = r2 := by
  simp only [quoteCodes, List.cons_append, List.append_assoc, List.cons.injEq,
    List.nil_append] at h
  exact escape_pd s1 s2 r1 r2 h.2

/-! ### Decimal number serialization -/

/-- The code point is a decimal digit. -/
def isDigitCode (c : Nat) : Bool := decide (48 ≤ c) && decide (c ≤ 57)

/-- Numeric value of a digit-code list, most significant first. -/
def digitsVal (l : List Nat) : Nat := l.foldl (fun a c => a * 10 + (c - 48)) 0

theorem natToDecAux_all_digits :
    ∀ fuel n, ∀ c ∈ natToDecAux fuel n, isDigitCode c = true := by
  intro fuel
  induction fuel with
  | zero => intro n c hc; simp [natToDecAux] at hc
  | succ f ih =>
    intro n c hc
    simp only [natToDecAux] at hc
    split_ifs at hc with h
    · simp only [List.mem_singleton] at hc
      subst hc
      simp only [isDigitCode, Bool.and_eq_true, decide_eq_true_eq]
      omega
    · rcases List.mem_append.mp hc with h1 | h1
      · exact ih _ c h1
      · simp only [List.mem_singleton] at h1
        subst h1
        simp only [isDigitCode, Bool.and_eq_true, decide_eq_true_eq]
        omega

theorem natToDecAux_ne_nil (fuel n : Nat) (hf : 0 < fuel) :
    natToDecAux fuel n ≠ [] := by
  cases fuel with
  | zero => omega
  | succ f =>
    simp only [natToDecAux]
    split_ifs with h
    · simp
    · simp

theorem foldl_natToDecAux (fuel : Nat) :
    ∀ n, n < fuel → ∀ a, List.foldl (fun acc c => acc * 10 + (c - 48)) a
        (natToDecAux fuel n)
      = a * 10 ^ (natToDecAux fuel n).length + n := by
  induction fuel with
  | zero => intro n hn; omega
  | succ f ih =>
    intro n hn a
    simp only [natToDecAux]
    split_ifs with h
    · simp only [List.foldl_cons, List.foldl_nil, List.length_singleton]
      omega
    · have hlt : n / 10 < n := Nat.div_lt_self (by omega) (by norm_num)
      have hfuel : n / 10 < f := by omega
      rw [List.foldl_append, List.length_append]
      simp only [List.foldl_cons, List.foldl_nil, List.length_singleton]
      rw [ih (n / 10) hfuel a]
      have hsub : 48 + n % 10 - 48 = n % 10 := by omega
      rw [hsub, pow_succ]
      have hdm : n / 10 * 10 + n % 10 = n := by omega
      have : (a * 10 ^ (natToDecAux f (n / 10)).length + n / 10) * 10 + n % 10
          = a * (10 ^ (natToDecAux f (n / 10)).length * 10)
            + (n / 10 * 10 + n % 10) := by ring
      rw [this, hdm]

theorem digitsVal_natToDec (n : Nat) : digitsVal (natToDec n) = n := by
  have := foldl_natToDecAux (n + 1) n (by omega) 0
  simpa [digitsVal, natToDec] using this

theorem natToDec_inj {n1 n2 : Nat} (h : natToDec n1 = natToDec n2) :
    n1 = n2 := by
  have := digitsVal_natToDec n1
  rw [h, digitsVal_natToDec] at this
  omega

theorem takeWhile_append_all {α : Type} {p : α → Bool} :
    ∀ l : List α, (∀ x ∈ l, p x = true) → ∀ c, p c = false → ∀ r,
      (l ++ c :: r).takeWhile p = l ∧ (l ++ c :: r).dropWhile p = c :: r := by
  intro l
  induction l with
  | nil =>
    intro _ c hc r
    simp [List.takeWhile_cons, List.dropWhile_cons, hc]
  | cons x xs ih =>
    intro hall c hc r
    have hx : p x = true := hall x (List.mem_cons_self x xs)
    have hxs : ∀ y ∈ xs, p y = true := fun y hy => hall y (List.mem_cons_of_mem x hy)
    obtain ⟨h1, h2⟩ := ih hxs c hc r
    constructor
    · simp [List.takeWhile_cons, hx, h1]
    · simp [List.dropWhile_cons, hx, h2]

/-- Prefix determinism of a serialized decimal number followed by a
non-digit code. -/
theorem natToDec_pd {n1 n2 c1 c2 : Nat} {r1 r2 : List Nat}
    (hc1 : isDigitCode c1 = false) (hc2 : isDigitCode c2 = false)
    (h : natToDec n1 ++ c1 :: r1 = natToDec n2 ++ c2 :: r2) :
    n1 = n2 ∧ c1 :: r1 = c2 :: r2 := by
  obtain ⟨t1, d1⟩ := takeWhile_append_all (natToDec n1)
    (natToDecAux_all_digits (n1 + 1) n1) c1 hc1 r1
  obtain ⟨t2, d2⟩ := takeWhile_append_all (natToDec n2)
    (natToDecAux_all_digits (n2 + 1) n2) c2 hc2 r2
  rw [h] at t1 d1
  exact ⟨natToDec_inj (t1.symm.trans t2), d1.symm.trans d2⟩

/-! ### Generic prefix determinism for JSON arrays -/

section ListPD

variable {α : Type} {f : α → List Nat}

theorem sepBody_pd
    (hf : ∀ x1 x2 : α, ∀ r1 r2 : List Nat,
      f x1 ++ r1 = f x2 ++ r2 → x1 = x2 ∧ r1 = r2) :
    ∀ l1 l2 : List α, ∀ r1 r2 : List Nat,
    sepBody f l1 ++ 93 :: r1 = sepBody f l2 ++ 93 :: r2 →
      l1 = l2 ∧ r1 = r2 := by
  intro l1
  induction l1 with
  | nil =>
    intro l2 r1 r2 h
    cases l2 with
    | nil => simpa [sepBody] using h
    | cons x2 xs2 =>
      exfalso
      simp only [sepBody, List.nil_append, List.cons_append, List.cons.injEq] at h
      omega
  | cons x1 xs1 ih =>
    intro l2 r1 r2 h
    cases l2 with
    | nil =>
      exfalso
      simp only [sepBody, List.nil_append, List.cons_append, List.cons.injEq] at h
      omega
    | cons x2 xs2 =>
      simp only [sepBody, List.cons_append, List.append_assoc, List.cons.injEq] at h
      obtain ⟨hx, hrest⟩ := hf x1 x2 _ _ h.2
      obtain ⟨hl, hr⟩ := ih xs2 r1 r2 hrest
      exact ⟨by rw [hx, hl], hr⟩

theorem listBody_pd
    (hf : ∀ x1 x2 : α, ∀ r1 r2 : List Nat,
      f x1 ++ r1 = f x2 ++ r2 → x1 = x2 ∧ r1 = r2)
    (hhead : ∀ x : α, ∃ h t, f x = h :: t ∧ h ≠ 93 ∧ h ≠ 44) :
    ∀ l1 l2 : List α, ∀ r1 r2 : List Nat,
    listBody f l1 ++ 93 :: r1 = listBody f l2 ++ 93 :: r2 →
      l1 = l2 ∧ r1 = r2 := by
  intro l1 l2 r1 r2 h
  cases l1 with
  | nil =>
    cases l2 with
    | nil => simpa [listBody] using h
    | cons x2 xs2 =>
      exfalso
      obtain ⟨hd, tl, he, hne93, hne44⟩ := hhead x2
      simp only [listBody, List.nil_append, List.append_assoc] at h
      rw [he] at h
      simp only [List.cons_append, List.cons.injEq] at h
      exact hne93 h.1.symm
  | cons x1 xs1 =>
    cases l2 with
    | nil =>
      exfalso
      obtain ⟨hd, tl, he, hne93, hne44⟩ := hhead x1
      simp only [listBody, List.nil_append, List.append_assoc] at h
      rw [he] at h
      simp only [List.cons_append, List.cons.injEq] at h
      exact hne93 h.1
    | cons x2 xs2 =>
      simp only [listBody, List.append_assoc] at h
      obtain ⟨hx, hrest⟩ := hf x1 x2 _ _ h
      obtain ⟨hl, hr⟩ := sepBody_pd hf xs1 xs2 r1 r2 hrest
      exact ⟨by rw [hx, hl], hr⟩

theorem listSer_pd
    (hf : ∀ x1 x2 : α, ∀ r1 r2 : List Nat,
      f x1 ++ r1 = f x2 ++ r2 → x1 = x2 ∧ r1 = r2)
    (hhead : ∀ x : α, ∃ h t, f x = h :: t ∧ h ≠ 93 ∧ h ≠ 44) :
    ∀ l1 l2 : List α, ∀ r1 r2 : List Nat,
    listSer f l1 ++ r1 = listSer f l2 ++ r2 → l1 = l2 ∧ r1 = r2 := by
  intro l1 l2 r1 r2 h
  simp only [listSer, List.cons_append, List.append_assoc, List.cons.injEq,
    List.nil_append] at h
  exact listBody_pd hf hhead l1 l2 r1 r2 h.2

end ListPD

/-- Prefix determinism for a serialized quoted string (as a `String`). -/
theorem strSer_pd : ∀ x1 x2 : String, ∀ r1 r2 : List Nat,
    quoteCodes (strCodes x1) ++ r1 = quoteCodes (strCodes x2) ++ r2 →
      x1 = x2 ∧ r1 = r2 := by
  intro x1 x2 r1 r2 h
  obtain ⟨hs, hr⟩ := quoteCodes_pd h
  exact ⟨strCodes_injective hs, hr⟩

/-- Prefix determinism of one serialized tag. -/
theorem tagSer_pd : ∀ t1 t2 : List String, ∀ r1 r2 : List Nat,
    tagSer t1 ++ r1 = tagSer t2 ++ r2 → t1 = t2 ∧ r1 = r2 := by
  intro t1 t2 r1 r2 h
  exact listSer_pd strSer_pd
    (fun x => ⟨34, escape (strCodes x) ++ [34], by rfl, by decide, by decide⟩)
    t1 t2 r1 r2 h

/-- Prefix determinism of the serialized tags field. -/
theorem tagsSer_pd : ∀ t1 t2 : List (List String), ∀ r1 r2 : List Nat,
    tagsSer t1 ++ r1 = tagsSer t2 ++ r2 → t1 = t2 ∧ r1 = r2 := by
  intro t1 t2 r1 r2 h
  exact listSer_pd tagSer_pd
    (fun x => ⟨91, listBody (fun s => quoteCodes (strCodes s)) x ++ [93], by rfl,
      by decide, by decide⟩) t1 t2 r1 r2 h

/-- `serializeEvent` determines all serialized fields: two events with the
same serialization agree on pubkey, timestamp, kind, tags and content. -/
theorem serializeEvent_inj {e1 e2 : NostrEvent}
    (h : serializeEvent e1 = serializeEvent e2) :
    e1.pubkey = e2.pubkey ∧ e1.created_at = e2.created_at ∧
      e1.kind = e2.kind ∧ e1.tags = e2.tags ∧ e1.content = e2.content := by
  simp only [serializeEvent, List.cons_append, List.nil_append,
    List.append_assoc, List.cons.injEq, true_and] at h
  obtain ⟨hpk, h⟩ := strSer_pd _ _ _ _ h
  simp only [List.cons.injEq, true_and] at h
  obtain ⟨hts, h⟩ := natToDec_pd (by decide) (by decide) h
  simp only [List.cons.injEq, true_and] at h
  obtain ⟨hk, h⟩ := natToDec_pd (by decide) (by decide) h
  simp only [List.cons.injEq, true_and] at h
  obtain ⟨htg, h⟩ := tagsSer_pd _ _ _ _ h
  simp only [List.cons.injEq, true_and] at h
  obtain ⟨hc, -⟩ := strSer_pd _ _ _ _ h
  exact ⟨hpk, hts, hk, htg, hc⟩

/-! ## JavaScript value helpers

`parseInt` of a config value can return `NaN`; such a number is `Option Nat`
with `none` for `NaN`.  All JS comparisons against `NaN` are false. -/

/-- `parseInt` restricted to the shapes that occur here: the longest leading
run of decimal digits, `NaN` (`none`) when there is none. -/
def jsParseInt (s : String) : Option Nat :=
  let ds := s.data.takeWhile Char.isDigit
  if ds.isEmpty then none
  else some (ds.foldl (fun a c => a * 10 + (c.toNat - 48)) 0)

/-- JS `a > b` where `b` may be `NaN` (false on `NaN`). -/
def jsGt (a : Nat) (b : Option Nat) : Bool :=
  match b with
  | some bv => decide (bv < a)
  | none => false

/-- JS `a > 0` where `a` may be `NaN` (false on `NaN`). -/
def jsPos (a : Option Nat) : Bool :=
  match a with
  | some av => decide (0 < av)
  | none => false

/-- JS `a < b` where `b` may be `NaN` (false on `NaN`). -/
def jsLt (a : Nat) (b : Option Nat) : Bool :=
  match b with
  | some bv => decide (a < bv)
  | none => false

/-- JS `x || dflt` on an optional string: the default replaces both a
missing value and the empty string (which is falsy). -/
def jsOrStr (o : Option String) (dflt : String) : String :=
  match o with
  | some s => if s == "" then dflt else s
  | none => dflt

/-- JS truthiness of an optional string (`undefined` and `""` are falsy). -/
def strTruthy (o : Option String) : Bool :=
  match o with
  | some s => !(s == "")
  | none => false

/-- Decimal rendering of a possibly-`NaN` number, for message text. -/
def amountStr (o : Option Nat) : String :=
  match o with
  | some a => toString a
  | none => "NaN"

/-! ## Filters (`src/types/nostr.ts` `NostrFilter`) -/

/-- A subscription filter.  `none` models an absent (undefined) field. -/
structure NostrFilter where
  ids : Option (List String) := none
  authors : Option (List String) := none
  kinds : Option (List Nat) := none
  since : Option Nat := none
  «until» : Option Nat := none
  limit : Option Nat := none
deriving Repr, DecidableEq

/-! ## Database rows (`src/db/sqlite.ts` tables) -/

/-- A `lightning_invoices` row. -/
structure LightningInvoice where
  payment_hash : String
  payment_request : String
  amount_sats : Nat
  description : String
  expires_at : Nat
  paid : Bool := false
  paid_at : Option Nat := none
deriving Repr, DecidableEq

/-- A `research_papers` row (the priced-content record).  The random UUID
primary key is omitted: rows are addressed by their unique `event_id`.
`price_paid` is `none` for SQL NULL or a stored `NaN`. -/
structure ResearchPaper where
  event_id : String
  title : String
  authors : List String
  abstract : String
  status : String
  size_bytes : Nat
  payment_hash : Option String := none
  price_paid : Option Nat := none
  published_at : Option Nat := none
  reviewer_notes : Option String := none
deriving Repr, DecidableEq

/-- The SQLite database state: the four tables, rows in insertion order. -/
structure DB where
  events : List NostrEvent := []
  research_papers : List ResearchPaper := []
  lightning_invoices : List LightningInvoice := []
  relay_config : List (String × String) := []
deriving Repr, DecidableEq

/-- `getConfig`: `row?.value || null` — a missing key or an empty stored
value both give `null`. -/
def getConfig (db : DB) (key : String) : Option String :=
  match db.relay_config.find? (fun p => p.1 == key) with
  | some p => if p.2 == "" then none else some p.2
  | none => none

/-- `parseInt(await getConfig(key) || dflt)`. -/
def configNat (db : DB) (key dflt : String) : Option Nat :=
  jsParseInt (match getConfig db key with | some v => v | none => dflt)

/-- `setConfig`: `INSERT OR REPLACE` by key. -/
def setConfig (db : DB) (key value : String) : DB :=
  { db with relay_config :=
      db.relay_config.filter (fun p => !(p.1 == key)) ++ [(key, value)] }

/-- `saveEvent`: `INSERT OR IGNORE` into `events`, keyed by `id`. -/
def saveEvent (db : DB) (e : NostrEvent) : DB :=
  if db.events.any (fun x => x.id == e.id) then db
  else { db with events := db.events ++ [e] }

/-- One filter's contribution to the `getEvents` SQL `WHERE` clause: a
constraint is appended only for a present, non-empty list field and for a
truthy (non-zero) `since`/`until`. -/
def sqlFilterClause (f : NostrFilter) (e : NostrEvent) : Bool :=
  (match f.ids with
   | some l => l.isEmpty || l.contains e.id
   | none => true) &&
  (match f.authors with
   | some l => l.isEmpty || l.contains e.pubkey
   | none => true) &&
  (match f.kinds with
   | some l => l.isEmpty || l.contains e.kind
   | none => true) &&
  (match f.since with
   | some s => s == 0 || decide (s ≤ e.created_at)
   | none => true) &&
  (match f.«until» with
   | some u => u == 0 || decide (e.created_at ≤ u)
   | none => true)

/-- Insert into a list kept sorted by descending `created_at`. -/
def insertByCreatedDesc (e : NostrEvent) : List NostrEvent → List NostrEvent
  | [] => [e]
  | x :: xs =>
    if e.created_at ≤ x.created_at then x :: insertByCreatedDesc e xs
    else e :: x :: xs

/-- `ORDER BY created_at DESC`. -/
def sortByCreatedDesc (l : List NostrEvent) : List NostrEvent :=
  l.foldr insertByCreatedDesc []

/-- `getEvents`: one `SELECT` whose `WHERE` clause accumulates the
constraints of **all** filters conjunctively, ordered by descending
timestamp, limited (default 100). -/
def getEvents (db : DB) (filters : List NostrFilter) (limit : Nat := 100) :
    List NostrEvent :=
  (sortByCreatedDesc (db.events.filter
    (fun e => filters.all (fun f => sqlFilterClause f e)))).take limit

/-- `saveResearchPaper`: a plain `INSERT` (no `OR IGNORE`); a second row
with the same `event_id` violates the `UNIQUE` constraint and the promise
rejects, modelled as `Except.error`. -/
def saveResearchPaper (db : DB) (p : ResearchPaper) : Except String DB :=
  if db.research_papers.any (fun x => x.event_id == p.event_id) then
    Except.error "UNIQUE constraint failed: research_papers.event_id"
  else Except.ok { db with research_papers := db.research_papers ++ [p] }

/-- `updatePaperStatus`: unconditionally overwrites `status`,
`reviewer_notes` and `published_at` (stamped `now` for `published`,
NULL otherwise) on the row with the given `event_id`. -/
def updatePaperStatus (db : DB) (eventId status : String)
    (reviewerNotes : Option String) (now : Nat) : DB :=
  let publishedAt : Option Nat := if status == "published" then some now else none
  { db with research_papers := db.research_papers.map (fun p =>
      if p.event_id == eventId then
        { p with status := status, reviewer_notes := reviewerNotes,
                 published_at := publishedAt }
      else p) }

/-- `saveLightningInvoice`: `INSERT OR IGNORE` by `payment_hash`; the `paid`
column takes its FALSE default. -/
def saveLightningInvoice (db : DB) (inv : LightningInvoice) : DB :=
  if db.lightning_invoices.any (fun x => x.payment_hash == inv.payment_hash) then db
  else { db with lightning_invoices :=
      db.lightning_invoices ++ [{ inv with paid := false, paid_at := none }] }

/-- `markInvoicePaid`: sets `paid = TRUE, paid_at = CURRENT_TIMESTAMP`. -/
def markInvoicePaid (db : DB) (paymentHash : String) (now : Nat) : DB :=
  { db with lightning_invoices := db.lightning_invoices.map (fun i =>
      if i.payment_hash == paymentHash then
        { i with paid := true, paid_at := some now }
      else i) }

/-- `getInvoice`: lookup by `payment_hash`. -/
def getInvoice (db : DB) (paymentHash : String) : Option LightningInvoice :=
  db.lightning_invoices.find? (fun i => i.payment_hash == paymentHash)

/-! ## Pricing service (`src/services/pricing.ts`)

The live pricing service is flat-rate: both price computations return the
`flat_rate_sats` configuration value (default `'1'`), independent of size
and duration.  The `size_mb` field of the result is a float used only for
display and is not modelled. -/

/-- Result of a price calculation (`PriceCalculation`). -/
structure PriceCalculation where
  amount_sats : Option Nat
  duration_years : Nat
  description : String
deriving Repr, DecidableEq

/-- `PricingService.calculatePrice`: flat rate from config, ignoring
`sizeBytes` and `durationYears` except for echoing the duration. -/
def calculatePrice (db : DB) (sizeBytes : Nat) (durationYears : Nat := 1) :
    PriceCalculation :=
  { amount_sats := configNat db "flat_rate_sats" "1",
    duration_years := durationYears,
    description := "Research paper publication fee (flat rate)" }

/-- `PricingService.calculateCommentPrice`: the same flat rate. -/
def calculateCommentPrice (db : DB) (sizeBytes : Nat) : PriceCalculation :=
  { amount_sats := configNat db "flat_rate_sats" "1",
    duration_years := 1,
    description := "Comment publication fee (flat rate)" }

/-! ## Lightning service (`src/services/lightning.ts`)

`checkInvoice` consults a backend: with no real wallet configured the
service runs in mock mode and `checkMockInvoice` returns `paid: true`
unconditionally ("automatically marking as PAID for testing").  A live
backend (LND or NWC) reports its settled flag, `false` when the lookup
fails.  The external ledger is modelled as a partial settlement map. -/

/-- The payment backend: mock mode, or a live node whose settlement state
is the given map (`none` = lookup failure). -/
inductive LightningBackend where
  | mock
  | live (settled : String → Option Bool)

/-- `LightningService.checkInvoice` (paid component of the result). -/
def checkInvoice (b : LightningBackend) (paymentHash : String) : Bool :=
  match b with
  | .mock => true
  | .live settled => (settled paymentHash).getD false

/-- Whether the invoice has actually been settled on the external payment
backend.  In mock mode there is no backend, so nothing is settled. -/
def settledOnBackend (b : LightningBackend) (paymentHash : String) : Bool :=
  match b with
  | .mock => false
  | .live settled => (settled paymentHash).getD false

/-! ## HTTP API routes (`src/routes/api.ts`) -/

/-- Response of `GET /payment/:payment_hash`. -/
inductive PaymentStatusResponse where
  | notFound
  | ok (paid : Bool)
deriving Repr, DecidableEq

/-- `GET /payment/:payment_hash`: look up the invoice, ask the backend,
and persist the paid flag when the backend reports paid and the stored row
is still unpaid. -/
def paymentStatusRoute (b : LightningBackend) (now : Nat)
    (paymentHash : String) (db : DB) : DB × PaymentStatusResponse :=
  match getInvoice db paymentHash with
  | none => (db, .notFound)
  | some invoice =>
    let paid := checkInvoice b paymentHash
    let db2 := if paid && !invoice.paid then markInvoicePaid db paymentHash now else db
    (db2, .ok paid)

/-- The status values accepted by `PUT /admin/papers/:event_id/status`. -/
def validStatuses : List String :=
  ["submitted", "under_review", "accepted", "rejected", "published"]

/-- `PUT /admin/papers/:event_id/status`: validate the status, then apply
`updatePaperStatus`.  Returns the new database and whether the request
succeeded (`false` models the 400 response). -/
def updatePaperStatusRoute (now : Nat) (eventId status : String)
    (reviewerNotes : Option String) (db : DB) : DB × Bool :=
  if validStatuses.contains status then
    (updatePaperStatus db eventId status reviewerNotes now, true)
  else (db, false)

/-! ## Nostr service (`src/services/nostr.ts`)

Connections (`ws : WebSocket`) are identified by a `Nat`.  The
`subscriptions` JS `Map` is an insertion-ordered association list with
`set` replacing in place.  The file `StorageService` is modelled as the
list of file paths written (contents embed a wall-clock header and are not
inspected by anything modelled here; `fs.writeFile` overwrites, so a path
occurs at most once). -/

/-- A registered subscription: the owning connection and its filters. -/
structure Subscription where
  conn : Nat
  filters : List NostrFilter
deriving Repr, DecidableEq

/-- The `NostrService` state: the database, the subscription map and the
file store. -/
structure RelayState where
  db : DB
  subs : List (String × Subscription) := []
  files : List String := []
deriving Repr, DecidableEq

/-- JS `Map.set`: replace in place if the key exists, else append. -/
def mapSet (m : List (String × Subscription)) (k : String) (v : Subscription) :
    List (String × Subscription) :=
  if m.any (fun p => p.1 == k) then
    m.map (fun p => if p.1 == k then (k, v) else p)
  else m ++ [(k, v)]

/-- JS `Map.get` as an option. -/
def mapLookup (m : List (String × Subscription)) (k : String) :
    Option Subscription :=
  (m.find? (fun p => p.1 == k)).map (fun p => p.2)

/-- JS `Map.delete`. -/
def mapDelete (m : List (String × Subscription)) (k : String) :
    List (String × Subscription) :=
  m.filter (fun p => !(p.1 == k))

/-- Messages the relay sends on a socket. -/
inductive RelayMsg where
  | ok (eventId : String) (success : Bool) (reason : String)
  | event (subId : String) (e : NostrEvent)
  | eose (subId : String)
  | notice (text : String)
deriving Repr, DecidableEq

/-- One filter of `eventMatchesFilters`: each present field must pass; a
present-but-empty list rejects everything, and a `since`/`until` of `0` is
falsy in JS and is skipped. -/
def filterMatches (f : NostrFilter) (e : NostrEvent) : Bool :=
  (match f.ids with
   | some l => l.contains e.id
   | none => true) &&
  (match f.authors with
   | some l => l.contains e.pubkey
   | none => true) &&
  (match f.kinds with
   | some l => l.contains e.kind
   | none => true) &&
  (match f.since with
   | some s => s == 0 || decide (s ≤ e.created_at)
   | none => true) &&
  (match f.«until» with
   | some u => u == 0 || decide (e.created_at ≤ u)
   | none => true)

/-- `NostrService.eventMatchesFilters`: `filters.some(...)` — any filter
suffices. -/
def eventMatchesFilters (e : NostrEvent) (filters : List NostrFilter) : Bool :=
  filters.any (fun f => filterMatches f e)

/-- `NostrService.getTagValue`: second entry of the first tag whose first
entry is the tag name. -/
def getTagValue (tags : List (List String)) (tagName : String) : Option String :=
  match tags.find? (fun t => t.head? == some tagName) with
  | some t => t[1]?
  | none => none

/-- `NostrService.broadcastEvent`: deliver the event, tagged with the
subscription id, to every registered subscription whose filters match. -/
def broadcastEvent (st : RelayState) (e : NostrEvent) : List (Nat × RelayMsg) :=
  st.subs.filterMap (fun p =>
    if eventMatchesFilters e p.2.filters then
      some (p.2.conn, RelayMsg.event p.1 e)
    else none)

/-- `StorageService.saveResearchPaper`: write `papers/{eventId}.md`
(overwrite). -/
def storageSavePaper (st : RelayState) (eventId : String) : RelayState :=
  if st.files.contains ("papers/" ++ eventId ++ ".md") then st
  else { st with files := st.files ++ ["papers/" ++ eventId ++ ".md"] }

/-- `StorageService.saveComment`: write `comments/{eventId}.txt`
(overwrite). -/
def storageSaveComment (st : RelayState) (eventId : String) : RelayState :=
  if st.files.contains ("comments/" ++ eventId ++ ".txt") then st
  else { st with files := st.files ++ ["comments/" ++ eventId ++ ".txt"] }

/-- The payment gate of `handleResearchPaper` (lines 111–134): `none` means
allowed, `some reason` the rejection reason.  A quoted amount of `0` (or
`NaN`) bypasses the gate entirely. -/
def paperGate (db : DB) (amount : Option Nat) (paymentHash : Option String) :
    Option String :=
  if jsPos amount then
    if !(strTruthy paymentHash) then
      some ("Payment required: " ++ amountStr amount ++ " sats. Create invoice first.")
    else
      match getInvoice db (paymentHash.getD "") with
      | none => some "Invalid payment hash"
      | some invoice =>
        if !invoice.paid then some "Payment not completed"
        else if jsLt invoice.amount_sats amount then some "Insufficient payment amount"
        else none
  else none

/-- The `research_papers` row `handleResearchPaper` inserts: metadata from
the tags, `status: 'published'` ("Auto-publish if payment is verified"),
the computed price as `price_paid`, and `published_at` from the event
timestamp (milliseconds). -/
def paperRecord (db : DB) (e : NostrEvent) : ResearchPaper :=
  { event_id := e.id,
    title := jsOrStr (getTagValue e.tags "title") "Untitled",
    authors := [e.pubkey],
    abstract := jsOrStr (getTagValue e.tags "summary") "",
    status := "published",
    size_bytes := calculateContentSize e.content,
    payment_hash := getTagValue e.tags "payment_hash",
    price_paid := (calculatePrice db (calculateContentSize e.content) 1).amount_sats,
    published_at := some (e.created_at * 1000),
    reviewer_notes := none }

/-- State after the admitted-paper writes: the paper row is already in
`db2`; write the content file, then insert the event row. -/
def afterPaperSave (st : RelayState) (db2 : DB) (e : NostrEvent) : RelayState :=
  { storageSavePaper { st with db := db2 } e.id with
      db := saveEvent (storageSavePaper { st with db := db2 } e.id).db e }

/-- `NostrService.handleResearchPaper` (kind 30023): size check, payment
gate, then insert the paper row, write the file, insert the event, reply
OK and broadcast.  The only rejecting promise is the duplicate-key paper
insert, surfaced as `Except.error` before any state change or message. -/
def handleResearchPaper (ws : Nat) (e : NostrEvent) (st : RelayState) :
    Except String (RelayState × List (Nat × RelayMsg)) :=
  if jsGt (calculateContentSize e.content)
      (configNat st.db "max_content_size" "52428800") then
    Except.ok (st, [(ws, .ok e.id false "Content too large")])
  else
    match paperGate st.db
        (calculatePrice st.db (calculateContentSize e.content) 1).amount_sats
        (getTagValue e.tags "payment_hash") with
    | some reason => Except.ok (st, [(ws, .ok e.id false reason)])
    | none =>
      match saveResearchPaper st.db (paperRecord st.db e) with
      | Except.error msg => Except.error msg
      | Except.ok db2 =>
        Except.ok (afterPaperSave st db2 e,
          [(ws, .ok e.id true "Paper published successfully")] ++
            broadcastEvent (afterPaperSave st db2 e) e)

/-- State after a free-kind save: the event row is inserted. -/
def afterEventSave (st : RelayState) (e : NostrEvent) : RelayState :=
  { st with db := saveEvent st.db e }

/-- State after a comment save: the comment file is written, then the
event row is inserted. -/
def afterCommentSave (st : RelayState) (e : NostrEvent) : RelayState :=
  { storageSaveComment st e.id with
      db := saveEvent (storageSaveComment st e.id).db e }

/-- `NostrService.handleHighlight` (kind 9802): free; save, OK, broadcast. -/
def handleHighlight (ws : Nat) (e : NostrEvent) (st : RelayState) :
    RelayState × List (Nat × RelayMsg) :=
  (afterEventSave st e,
    [(ws, .ok e.id true "")] ++ broadcastEvent (afterEventSave st e) e)

/-- `NostrService.handleCommentReply` (kind 1): quotes a comment fee in a
NOTICE but saves and acknowledges unconditionally, then broadcasts. -/
def handleCommentReply (ws : Nat) (e : NostrEvent) (st : RelayState) :
    RelayState × List (Nat × RelayMsg) :=
  (afterCommentSave st e,
    [(ws, .ok e.id true "")] ++ broadcastEvent (afterCommentSave st e) e ++
      [(ws, .notice ("Comment posted. Fee: " ++
        amountStr (calculateCommentPrice st.db
          (calculateContentSize e.content)).amount_sats ++ " sats."))])

/-- `NostrService.handleReaction` (kind 7): free; save, OK, broadcast. -/
def handleReaction (ws : Nat) (e : NostrEvent) (st : RelayState) :
    RelayState × List (Nat × RelayMsg) :=
  (afterEventSave st e,
    [(ws, .ok e.id true "")] ++ broadcastEvent (afterEventSave st e) e)

/-- `NostrService.handleComment` (kind 1111): quotes the comment price in a
NOTICE, then saves the comment and the event and acknowledges OK —
without any payment verification and without broadcasting. -/
def handleComment (ws : Nat) (e : NostrEvent) (st : RelayState) :
    RelayState × List (Nat × RelayMsg) :=
  (afterCommentSave st e,
    [(ws, .notice ("Comment price: " ++
        amountStr (calculateCommentPrice st.db
          (calculateContentSize e.content)).amount_sats ++
        " sats. Use /get-comment-invoice endpoint to pay.")),
     (ws, .ok e.id true "")])

/-- The default branch of `handleEvent`: save directly, OK, broadcast. -/
def handleDefaultEvent (ws : Nat) (e : NostrEvent) (st : RelayState) :
    RelayState × List (Nat × RelayMsg) :=
  (afterEventSave st e,
    [(ws, .ok e.id true "")] ++ broadcastEvent (afterEventSave st e) e)

/-- `NostrService.handleEvent`: signature validation first, then dispatch
on the kind; a rejected promise is caught and answered with
`OK(id, false, 'Server error')`. -/
def handleEvent (H : List Nat → String) (ws : Nat) (e : NostrEvent)
    (st : RelayState) : RelayState × List (Nat × RelayMsg) :=
  if !(validateEventSignature H e) then
    (st, [(ws, .ok e.id false "Invalid signature")])
  else if e.kind == 30023 then
    match handleResearchPaper ws e st with
    | Except.ok r => r
    | Except.error _ => (st, [(ws, .ok e.id false "Server error")])
  else if e.kind == 9802 then handleHighlight ws e st
  else if e.kind == 1 then handleCommentReply ws e st
  else if e.kind == 7 then handleReaction ws e st
  else if e.kind == 1111 then handleComment ws e st
  else handleDefaultEvent ws e st

/-- `NostrService.handleRequest`: register (or replace) the subscription,
replay historical matches, then send exactly one EOSE. -/
def handleRequest (ws : Nat) (subscriptionId : String)
    (filters : List NostrFilter) (st : RelayState) :
    RelayState × List (Nat × RelayMsg) :=
  ({ st with subs := mapSet st.subs subscriptionId ⟨ws, filters⟩ },
    (getEvents st.db filters 100).map
        (fun ev => (ws, RelayMsg.event subscriptionId ev)) ++
      [(ws, RelayMsg.eose subscriptionId)])

/-- `NostrService.handleClose`: delete by subscription id; the connection
argument is ignored, exactly as in the source. -/
def handleClose (ws : Nat) (subscriptionId : String) (st : RelayState) :
    RelayState :=
  { st with subs := mapDelete st.subs subscriptionId }

/-- `NostrService.cleanup`: remove every subscription owned by the closing
connection. -/
def cleanup (ws : Nat) (st : RelayState) : RelayState :=
  { st with subs := st.subs.filter (fun p => !(p.2.conn == ws)) }

/-! ## Spec-level definitions

These follow the wording of the specification (not the code) and are used
to compare code behaviour against spec semantics. -/

/-- Spec wording (§3, §4.5): one filter holds when every populated
constraint among ids, authors, kinds, since, until holds (AND inside a
filter; both bounds inclusive). -/
def specFilterHolds (f : NostrFilter) (e : NostrEvent) : Prop :=
  (∀ l, f.ids = some l → e.id ∈ l) ∧
  (∀ l, f.authors = some l → e.pubkey ∈ l) ∧
  (∀ l, f.kinds = some l → e.kind ∈ l) ∧
  (∀ s, f.since = some s → s ≤ e.created_at) ∧
  (∀ u, f.«until» = some u → e.created_at ≤ u)

/-- Spec wording (§3): an event matches a subscription when it matches
*any* of its filters (OR across filters). -/
def specSubscriptionMatch (e : NostrEvent) (filters : List NostrFilter) : Prop :=
  ∃ f ∈ filters, specFilterHolds f e

/-- The claimed pricing formula:
`ceil(sizeBytes / 1MiB × ratePerMbYear × durationYears)` in exact
arithmetic. -/
def specCeilPrice (rate sizeBytes durationYears : Nat) : Nat :=
  (sizeBytes * rate * durationYears + 1048575) / 1048576

/-- The reply batch contains a successful OK for the given event id. -/
def okSuccess (msgs : List (Nat × RelayMsg)) (eventId : String) : Bool :=
  msgs.any (fun m =>
    match m.2 with
    | RelayMsg.ok i s _ => i == eventId && s
    | _ => false)

/-- The message is an EOSE. -/
def isEose (m : Nat × RelayMsg) : Bool :=
  match m.2 with
  | RelayMsg.eose _ => true
  | _ => false

/-- Subscription name a delivery-side message is tagged with. -/
def msgSubId (m : RelayMsg) : Option String :=
  match m with
  | RelayMsg.event s _ => some s
  | RelayMsg.eose s => some s
  | _ => none

/-! ## General lemmas about the embedded operations -/

theorem mem_insertByCreatedDesc (a e : NostrEvent) :
    ∀ l, a ∈ insertByCreatedDesc e l ↔ a = e ∨ a ∈ l := by
  intro l
  induction l with
  | nil => simp [insertByCreatedDesc]
  | cons x xs ih =>
    simp only [insertByCreatedDesc]
    split_ifs with h
    · rw [List.mem_cons, ih, List.mem_cons]
      tauto
    · rw [List.mem_cons, List.mem_cons]

theorem mem_sortByCreatedDesc (a : NostrEvent) :
    ∀ l, a ∈ sortByCreatedDesc l ↔ a ∈ l := by
  intro l
  induction l with
  | nil => simp [sortByCreatedDesc]
  | cons x xs ih =>
    have hs : sortByCreatedDesc (x :: xs) = insertByCreatedDesc x (sortByCreatedDesc xs) := rfl
    rw [hs, mem_insertByCreatedDesc]
    simp only [List.mem_cons, ih]

theorem length_insertByCreatedDesc (e : NostrEvent) :
    ∀ l, (insertByCreatedDesc e l).length = l.length + 1 := by
  intro l
  induction l with
  | nil => simp [insertByCreatedDesc]
  | cons x xs ih =>
    simp only [insertByCreatedDesc]
    split_ifs with h
    · simp [ih]
    · simp

theorem length_sortByCreatedDesc :
    ∀ l, (sortByCreatedDesc l).length = l.length := by
  intro l
  induction l with
  | nil => rfl
  | cons x xs ih =>
    have hs : sortByCreatedDesc (x :: xs) = insertByCreatedDesc x (sortByCreatedDesc xs) := rfl
    rw [hs, length_insertByCreatedDesc, ih]
    rfl

/-- Soundness of `getEvents` membership: every returned event is stored and
satisfies the conjunction of all filters' SQL clauses. -/
theorem mem_getEvents_sound {db : DB} {filters : List NostrFilter}
    {limit : Nat} {e : NostrEvent} (h : e ∈ getEvents db filters limit) :
    e ∈ db.events ∧ ∀ f ∈ filters, sqlFilterClause f e = true := by
  have h1 : e ∈ sortByCreatedDesc (db.events.filter
      (fun x => filters.all (fun f => sqlFilterClause f x))) :=
    List.take_subset _ _ h
  rw [mem_sortByCreatedDesc] at h1
  obtain ⟨hmem, hpred⟩ := List.mem_filter.mp h1
  exact ⟨hmem, fun f hf => by
    have := List.all_eq_true.mp hpred f hf
    simpa using this⟩

/-- Completeness of `getEvents` membership when the store fits the limit. -/
theorem mem_getEvents_complete {db : DB} {filters : List NostrFilter}
    {limit : Nat} {e : NostrEvent} (hlen : db.events.length ≤ limit)
    (hmem : e ∈ db.events)
    (hpred : ∀ f ∈ filters, sqlFilterClause f e = true) :
    e ∈ getEvents db filters limit := by
  unfold getEvents
  have hfl : (db.events.filter
      (fun x => filters.all (fun f => sqlFilterClause f x))).length ≤ limit :=
    le_trans (List.length_filter_le _ _) hlen
  have hsl : (sortByCreatedDesc (db.events.filter
      (fun x => filters.all (fun f => sqlFilterClause f x)))).length ≤ limit := by
    rw [length_sortByCreatedDesc]; exact hfl
  rw [List.take_of_length_le hsl, mem_sortByCreatedDesc, List.mem_filter]
  exact ⟨hmem, List.all_eq_true.mpr (fun f hf => by simpa using hpred f hf)⟩

/-- Characterization of the entries of `mapSet`. -/
theorem mem_mapSet {m : List (String × Subscription)} {k : String}
    {v : Subscription} {q : String × Subscription} (h : q ∈ mapSet m k v) :
    q = (k, v) ∨ (q ∈ m ∧ q.1 ≠ k) := by
  unfold mapSet at h
  split_ifs at h with hex
  · obtain ⟨p, hp, hq⟩ := List.mem_map.mp h
    by_cases hk : p.1 = k
    · left
      rw [← hq]
      simp [hk]
    · right
      have : q = p := by rw [← hq]; simp [hk]
      rw [this]
      exact ⟨hp, hk⟩
  · rcases List.mem_append.mp h with h1 | h1
    · right
      refine ⟨h1, fun hk => ?_⟩
      exact hex (List.any_eq_true.mpr ⟨q, h1, by simp [hk]⟩)
    · left
      simpa using h1

/-- `mapSet` then lookup of the same key. -/
theorem mapLookup_mapSet (m : List (String × Subscription)) (k : String)
    (v : Subscription) : mapLookup (mapSet m k v) k = some v := by
  unfold mapLookup mapSet
  split_ifs with hex
  · induction m with
    | nil => simp at hex
    | cons p ps ih =>
      simp only [List.map_cons]
      by_cases hk : (p.1 == k) = true
      · rw [if_pos hk, List.find?_cons_of_pos _ (by simp)]
        rfl
      · rw [if_neg hk,
          @List.find?_cons_of_neg (String × Subscription) (fun q => q.1 == k) p _ hk]
        apply ih
        simp only [List.any_cons, Bool.or_eq_true_iff] at hex
        tauto
  · induction m with
    | nil =>
      rw [List.nil_append, List.find?_cons_of_pos _ (by simp)]
      rfl
    | cons p ps ih =>
      have h1 : ¬((p.1 == k) = true) := by
        intro hk
        exact hex (List.any_eq_true.mpr ⟨p, List.mem_cons_self p ps, hk⟩)
      rw [List.cons_append,
        @List.find?_cons_of_neg (String × Subscription) (fun q => q.1 == k) p _ h1]
      apply ih
      intro h2
      apply hex
      obtain ⟨q, hq, hqk⟩ := List.any_eq_true.mp h2
      exact List.any_eq_true.mpr ⟨q, List.mem_cons_of_mem p hq, hqk⟩

/-- Deleting a key makes its lookup fail. -/
theorem mapLookup_mapDelete (m : List (String × Subscription)) (k : String) :
    mapLookup (mapDelete m k) k = none := by
  unfold mapLookup mapDelete
  rw [List.find?_eq_none.mpr]
  · rfl
  · intro p hp
    have := (List.mem_filter.mp hp).2
    simpa using this

/-! ## A concrete injective digest for witnesses

The theorems about hash verification are stated for an arbitrary digest
`H` assumed collision-free (injective).  Witnesses instantiate `H` with a
decimal encoding, each code printed in decimal followed by a `b`
terminator, which is injective by construction. -/

/-- Character for a digit code (applied only to codes 48-57). -/
def digChar (d : Nat) : Char := Char.ofNat d

/-- The digit characters of one code, then a `b` terminator. -/
def decCode (l : List Nat) : List Char :=
  l.flatMap (fun n => (natToDec n).map digChar ++ ['b'])

/-- A concrete injective digest function. -/
def demoDigest (l : List Nat) : String := String.mk (decCode l)

theorem digChar_inj_on {c1 c2 : Nat} (h1 : isDigitCode c1 = true)
    (h2 : isDigitCode c2 = true) (h : digChar c1 = digChar c2) : c1 = c2 := by
  simp only [isDigitCode, Bool.and_eq_true, decide_eq_true_eq] at h1 h2
  obtain ⟨h1a, h1b⟩ := h1
  obtain ⟨h2a, h2b⟩ := h2
  interval_cases c1 <;> interval_cases c2 <;> revert h <;> decide

/-- The character of a digit code is in the digit character range. -/
def isDigChar (c : Char) : Bool := decide ('0' ≤ c) && decide (c ≤ '9')

theorem isDigChar_digChar {c : Nat} (h : isDigitCode c = true) :
    isDigChar (digChar c) = true := by
  simp only [isDigitCode, Bool.and_eq_true, decide_eq_true_eq] at h
  obtain ⟨ha, hb⟩ := h
  interval_cases c <;> decide

theorem not_isDigChar_b : isDigChar 'b' = false := by decide

theorem map_digChar_inj : ∀ l1 l2 : List Nat,
    (∀ c ∈ l1, isDigitCode c = true) → (∀ c ∈ l2, isDigitCode c = true) →
    l1.map digChar = l2.map digChar → l1 = l2 := by
  intro l1
  induction l1 with
  | nil =>
    intro l2 _ _ h
    cases l2 with
    | nil => rfl
    | cons c t => simp at h
  | cons c1 t1 ih =>
    intro l2 hd1 hd2 h
    cases l2 with
    | nil => simp at h
    | cons c2 t2 =>
      simp only [List.map_cons, List.cons.injEq] at h
      have hc := digChar_inj_on (hd1 c1 (List.mem_cons_self c1 t1))
        (hd2 c2 (List.mem_cons_self c2 t2)) h.1
      rw [hc, ih t2 (fun c hm => hd1 c (List.mem_cons_of_mem c1 hm))
        (fun c hm => hd2 c (List.mem_cons_of_mem c2 hm)) h.2]

/-- Prefix determinism of one decimal-encoded code with terminator. -/
theorem decCode_elem_pd : ∀ n1 n2 : Nat, ∀ r1 r2 : List Char,
    (natToDec n1).map digChar ++ 'b' :: r1 =
      (natToDec n2).map digChar ++ 'b' :: r2 → n1 = n2 ∧ r1 = r2 := by
  intro n1 n2 r1 r2 h
  have hd1 : ∀ c ∈ (natToDec n1).map digChar, isDigChar c = true := by
    intro c hc
    obtain ⟨d, hd, hdc⟩ := List.mem_map.mp hc
    rw [← hdc]
    exact isDigChar_digChar (natToDecAux_all_digits (n1 + 1) n1 d hd)
  have hd2 : ∀ c ∈ (natToDec n2).map digChar, isDigChar c = true := by
    intro c hc
    obtain ⟨d, hd, hdc⟩ := List.mem_map.mp hc
    rw [← hdc]
    exact isDigChar_digChar (natToDecAux_all_digits (n2 + 1) n2 d hd)
  obtain ⟨t1, d1⟩ := takeWhile_append_all _ hd1 _ not_isDigChar_b r1
  obtain ⟨t2, d2⟩ := takeWhile_append_all _ hd2 _ not_isDigChar_b r2
  rw [h] at t1 d1
  have hmap : (natToDec n1).map digChar = (natToDec n2).map digChar :=
    t1.symm.trans t2
  have hdec : natToDec n1 = natToDec n2 :=
    map_digChar_inj _ _ (natToDecAux_all_digits (n1 + 1) n1)
      (natToDecAux_all_digits (n2 + 1) n2) hmap
  have hrest := d1.symm.trans d2
  refine ⟨natToDec_inj hdec, ?_⟩
  injection hrest

theorem decCode_eq_cons (n : Nat) (t : List Nat) :
    decCode (n :: t) = (natToDec n).map digChar ++ 'b' :: decCode t := by
  simp [decCode, List.flatMap_cons]

theorem decCode_injective : Function.Injective decCode := by
  intro l1
  induction l1 with
  | nil =>
    intro l2 h
    cases l2 with
    | nil => rfl
    | cons m s =>
      exfalso
      have hlen := congrArg List.length h
      rw [decCode_eq_cons] at hlen
      simp [decCode, List.length_append] at hlen
      omega
  | cons n t ih =>
    intro l2 h
    cases l2 with
    | nil =>
      exfalso
      have hlen := congrArg List.length h
      rw [decCode_eq_cons] at hlen
      simp [decCode, List.length_append] at hlen
    | cons m s =>
      rw [decCode_eq_cons, decCode_eq_cons] at h
      obtain ⟨hn, hr⟩ := decCode_elem_pd n m _ _ h
      rw [hn, ih hr]

theorem demoDigest_injective : Function.Injective demoDigest := by
  intro a b h
  apply decCode_injective
  have := congrArg String.data h
  simpa [demoDigest] using this

/-! ## Witness fixtures -/

/-- Base fields of the witness event (id to be filled in). -/
def wEventBase : NostrEvent :=
  { id := "", pubkey := "pk", created_at := 5, kind := 1,
    tags := [["t", "v"]], content := "c", sig := "sg" }

/-- A correctly hashed event under `demoDigest`. -/
def wEvent : NostrEvent :=
  { wEventBase with id := demoDigest (serializeEvent wEventBase) }

/-- The same event with one field (content) changed, the id kept. -/
def wEventTampered : NostrEvent := { wEvent with content := "d" }

/-- The empty relay state. -/
def emptyState : RelayState := { db := {} }

/-! ## Claim C3 -/

/-- C3: `verify(event)` returns true iff the event's stated identity hash
equals the digest of the fixed JSON-array serialization of
(0, pubkey, created_at, kind, tags, content); and (given that the digest is
collision-free) changing any of those fields of an event whose hash matched
while keeping its stated id makes `verify` return false. -/
theorem C3_verify_iff_canonical_hash (H : List Nat → String)
    (hH : Function.Injective H) :
    (∀ e : NostrEvent, validateEventSignature H e = true ↔
      e.id = getEventHash H e) ∧
    (∀ e e2 : NostrEvent, validateEventSignature H e = true → e2.id = e.id →
      (e2.pubkey, e2.created_at, e2.kind, e2.tags, e2.content) ≠
        (e.pubkey, e.created_at, e.kind, e.tags, e.content) →
      validateEventSignature H e2 = false) := by
  constructor
  · intro e
    simp [validateEventSignature]
  · intro e e2 hv hid hne
    by_contra hfalse
    have hv2 : validateEventSignature H e2 = true := by
      cases hb : validateEventSignature H e2
      · exact absurd hb hfalse
      · rfl
    have h1 : e.id = getEventHash H e := by
      simpa [validateEventSignature] using hv
    have h2 : e2.id = getEventHash H e2 := by
      simpa [validateEventSignature] using hv2
    have hHeq : H (serializeEvent e2) = H (serializeEvent e) := by
      have : getEventHash H e2 = getEventHash H e := by
        rw [← h2, hid, h1]
      simpa [getEventHash] using this
    obtain ⟨ha, hb, hc, hd, he⟩ := serializeEvent_inj (hH hHeq)
    exact hne (by rw [ha, hb, hc, hd, he])

set_option maxRecDepth 4000 in
/-- Witness for C3 at a concrete event and the concrete injective digest:
the correctly hashed event satisfies the equivalence, and tampering with
its content flips `verify` to false. -/
theorem C3_verify_iff_canonical_hash_witness :
    (validateEventSignature demoDigest wEvent = true ↔
      wEvent.id = getEventHash demoDigest wEvent) ∧
    validateEventSignature demoDigest wEventTampered = false :=
  ⟨(C3_verify_iff_canonical_hash demoDigest demoDigest_injective).1 wEvent,
   (C3_verify_iff_canonical_hash demoDigest demoDigest_injective).2 wEvent
     wEventTampered (by decide) rfl (by decide)⟩

/-! ## Claim C7 -/

/-- C7: an event whose stated identity hash differs from the recomputed
canonical hash is answered `OK(id, false, 'Invalid signature')` with no
further processing: the state (events, papers, invoices, files,
subscriptions) is untouched and no other message — in particular no
broadcast — is sent. -/
theorem C7_invalid_hash_rejected (H : List Nat → String) (ws : Nat)
    (e : NostrEvent) (st : RelayState) (h : e.id ≠ getEventHash H e) :
    handleEvent H ws e st =
      (st, [(ws, RelayMsg.ok e.id false "Invalid signature")]) := by
  have hv : validateEventSignature H e = false := by
    simp [validateEventSignature, h]
  simp [handleEvent, hv]

/-- An event with a wrong stated hash, for the C7 witness. -/
def wBadEvent : NostrEvent :=
  { id := "y", pubkey := "p", created_at := 0, kind := 1, tags := [],
    content := "", sig := "s" }

/-- Witness for C7 at a concrete mismatched event. -/
theorem C7_invalid_hash_rejected_witness :
    handleEvent (fun _ => "x") 0 wBadEvent emptyState =
      (emptyState, [(0, RelayMsg.ok "y" false "Invalid signature")]) :=
  C7_invalid_hash_rejected (fun _ => "x") 0 wBadEvent emptyState (by decide)

/-! ## Claim C5 -/

/-- Configuration fixing the claimed rate, for the C5 counterexample. -/
def c5db : DB := { relay_config := [("price_per_mb_year", "1000")] }

/-- C5 counterexample: with `price_per_mb_year = 1000`, a 2 MiB paper for
one year should cost 2000 sats by the claimed formula, but `calculatePrice`
returns the flat rate (default 1 sat), ignoring size and duration. -/
theorem C5_counterexample :
    (calculatePrice c5db 2097152 1).amount_sats = some 1 ∧
    specCeilPrice 1000 2097152 1 = 2000 ∧
    (calculatePrice c5db 2097152 1).amount_sats ≠
      some (specCeilPrice 1000 2097152 1) := by decide

/-- C5 amended: `calculatePrice` returns the `flat_rate_sats` configuration
value (default 1) read at call time, independent of `sizeBytes` and
`durationYears`; it is deterministic given the configuration snapshot. -/
theorem C5_price_flat_rate (db : DB) (s1 y1 s2 y2 : Nat) :
    (calculatePrice db s1 y1).amount_sats = configNat db "flat_rate_sats" "1" ∧
    (calculatePrice db s1 y1).amount_sats = (calculatePrice db s2 y2).amount_sats :=
  ⟨rfl, rfl⟩

/-! ## Claim C6 -/

/-- A published paper with a stamped publication timestamp, for C6. -/
def c6paper : ResearchPaper :=
  { event_id := "e1", title := "t", authors := ["a"], abstract := "",
    status := "published", size_bytes := 1, payment_hash := none,
    price_paid := some 1, published_at := some 111, reviewer_notes := none }

/-- Database holding the published paper. -/
def c6db : DB := { research_papers := [c6paper] }

/-- C6 counterexample: a later transition away from `published` clears the
stamped timestamp to NULL, a repeated `published` transition overwrites it
with a fresh time, and a same-status transition is not a no-op. -/
theorem C6_counterexample :
    ((updatePaperStatusRoute 222 "e1" "under_review" none c6db).1.research_papers.map
      (fun p => p.published_at)) = [none] ∧
    ((updatePaperStatusRoute 333 "e1" "published" none c6db).1.research_papers.map
      (fun p => p.published_at)) = [some 333] ∧
    c6paper.published_at = some 111 ∧
    (updatePaperStatusRoute 333 "e1" "published" none c6db).1 ≠ c6db := by decide

/-- C6 amended: every accepted reviewer transition (including one whose
target equals the current status) overwrites the record's status,
reviewer notes and publication timestamp — the timestamp becomes the
current time when the target is `published` and NULL otherwise — while an
invalid target status is rejected with no change. -/
theorem C6_transition_overwrites :
    (∀ db eid status notes now, validStatuses.contains status = true →
      updatePaperStatusRoute now eid status notes db =
        ({ db with research_papers := db.research_papers.map (fun p =>
            if p.event_id == eid then
              { p with status := status, reviewer_notes := notes,
                       published_at :=
                         if status == "published" then some now else none }
            else p) }, true)) ∧
    (∀ db eid status notes now, validStatuses.contains status = false →
      updatePaperStatusRoute now eid status notes db = (db, false)) := by
  constructor
  · intro db eid status notes now hvalid
    unfold updatePaperStatusRoute
    rw [if_pos hvalid]
    simp [updatePaperStatus]
  · intro db eid status notes now hinvalid
    unfold updatePaperStatusRoute
    rw [if_neg]
    rw [hinvalid]
    simp

/-- Witness for C6 amended at the concrete published record: a valid
transition rewrites the row, an invalid status changes nothing. -/
theorem C6_transition_overwrites_witness :
    updatePaperStatusRoute 222 "e1" "under_review" none c6db =
      ({ c6db with research_papers := c6db.research_papers.map (fun p =>
          if p.event_id == "e1" then
            { p with status := "under_review", reviewer_notes := none,
                     published_at :=
                       if "under_review" == "published" then some 222 else none }
          else p) }, true) ∧
    updatePaperStatusRoute 1 "e1" "bogus" none c6db = (c6db, false) :=
  ⟨C6_transition_overwrites.1 c6db "e1" "under_review" none 222 (by decide),
   C6_transition_overwrites.2 c6db "e1" "bogus" none 1 (by decide)⟩

/-! ## Claim C9 -/

/-- An unpaid invoice, for the C9 counterexample. -/
def c9inv : LightningInvoice :=
  { payment_hash := "ph", payment_request := "req", amount_sats := 5,
    description := "", expires_at := 10, paid := false, paid_at := none }

/-- Database holding the unpaid invoice. -/
def c9db : DB := { lightning_invoices := [c9inv] }

/-- C9 counterexample: in mock mode (no wallet configured, hence nothing
settled on any external backend) the payment-status route reports the
unsettled invoice as paid and persists the stored paid flag. -/
theorem C9_counterexample :
    settledOnBackend LightningBackend.mock "ph" = false ∧
    (paymentStatusRoute LightningBackend.mock 7 "ph" c9db).2 =
      PaymentStatusResponse.ok true ∧
    ((paymentStatusRoute LightningBackend.mock 7 "ph" c9db).1.lightning_invoices.map
      (fun i => i.paid)) = [true] := by decide

/-- C9 amended: with a live backend, `checkInvoice` reports paid exactly
when the backend reports the invoice settled, and the payment-status route
marks an invoice paid only when it was already paid or the backend has
settled it — so a live deployment never observes a false paid.  In mock
mode, however, every check reports paid unconditionally. -/
theorem C9_no_false_paid_live :
    (∀ settled : String → Option Bool, ∀ ph,
      (checkInvoice (LightningBackend.live settled) ph = true ↔
        settled ph = some true)) ∧
    (∀ settled : String → Option Bool, ∀ now ph db,
      ∀ i ∈ (paymentStatusRoute (LightningBackend.live settled) now ph
        db).1.lightning_invoices, i.paid = true →
        (∃ i0 ∈ db.lightning_invoices,
          i0.payment_hash = i.payment_hash ∧ i0.paid = true) ∨
        (i.payment_hash = ph ∧ settled ph = some true)) ∧
    (∀ ph, checkInvoice LightningBackend.mock ph = true) := by
  refine ⟨?_, ?_, fun ph => rfl⟩
  · intro settled ph
    cases hse : settled ph with
    | none => simp [checkInvoice, hse]
    | some b => cases b <;> simp [checkInvoice, hse]
  · intro settled now ph db i hi hpaid
    unfold paymentStatusRoute at hi
    cases hinv : getInvoice db ph with
    | none =>
      rw [hinv] at hi
      exact Or.inl ⟨i, hi, rfl, hpaid⟩
    | some invoice =>
      rw [hinv] at hi
      simp only at hi
      by_cases hcond : (checkInvoice (LightningBackend.live settled) ph &&
          !invoice.paid) = true
      · rw [if_pos hcond] at hi
        unfold markInvoicePaid at hi
        simp only at hi
        obtain ⟨i0, hi0, heq⟩ := List.mem_map.mp hi
        by_cases hk : (i0.payment_hash == ph) = true
        · rw [if_pos hk] at heq
          right
          refine ⟨?_, ?_⟩
          · rw [← heq]
            exact eq_of_beq hk
          · obtain ⟨hck, -⟩ := Bool.and_eq_true_iff.mp hcond
            cases hse : settled ph with
            | none => rw [checkInvoice, hse] at hck; simp at hck
            | some b =>
              cases b
              · rw [checkInvoice, hse] at hck; simp at hck
              · rfl
        · rw [if_neg hk] at heq
          rw [← heq]
          exact Or.inl ⟨i0, hi0, rfl, heq ▸ hpaid⟩
      · rw [if_neg hcond] at hi
        exact Or.inl ⟨i, hi, rfl, hpaid⟩

/-- A concrete settlement map for the C9 witness. -/
def c9settled : String → Option Bool :=
  fun h => if h == "ph" then some true else none

/-- Witness for C9 amended: a live backend whose ledger settles `"ph"`
reports exactly that, the route's marking of the stored invoice is
justified by the backend, and the mock backend reports paid for an
arbitrary hash. -/
theorem C9_no_false_paid_live_witness :
    (checkInvoice (LightningBackend.live c9settled) "ph" = true ↔
      c9settled "ph" = some true) ∧
    ((∃ i0 ∈ c9db.lightning_invoices,
        i0.payment_hash = ({ c9inv with paid := true, paid_at := some 7 }
          : LightningInvoice).payment_hash ∧ i0.paid = true) ∨
      (({ c9inv with paid := true, paid_at := some 7 }
          : LightningInvoice).payment_hash = "ph" ∧
        c9settled "ph" = some true)) ∧
    checkInvoice LightningBackend.mock "x" = true :=
  ⟨C9_no_false_paid_live.1 c9settled "ph",
   C9_no_false_paid_live.2.1 c9settled 7 "ph" c9db
     { c9inv with paid := true, paid_at := some 7 } (by decide) rfl,
   C9_no_false_paid_live.2.2 "x"⟩

/-! ## Claim C2 -/

/-- A kind-1 event, for the C2 counterexample. -/
def c2event : NostrEvent :=
  { id := "i", pubkey := "p", created_at := 5, kind := 1, tags := [],
    content := "", sig := "s" }

/-- Two filters with disjoint kinds. -/
def c2filters : List NostrFilter :=
  [{ kinds := some [1] }, { kinds := some [2] }]

/-- Store holding the kind-1 event. -/
def c2db : DB := { events := [c2event] }

/-- C2 counterexample: the kind-1 event satisfies the first of the two
filters, so live broadcast matching (OR) accepts it, but the historical
query conjoins the constraints of both filters and returns nothing. -/
theorem C2_counterexample :
    eventMatchesFilters c2event c2filters = true ∧
    getEvents c2db c2filters 100 = [] := by decide

/-- One filter of the live matcher agrees with the spec semantics as long
as its `until` bound is not the falsy value 0 (which the code skips). -/
theorem filterMatches_iff_spec (f : NostrFilter) (e : NostrEvent)
    (hu : f.«until» ≠ some 0) :
    filterMatches f e = true ↔ specFilterHolds f e := by
  obtain ⟨ids, authors, kinds, since, untl, lim⟩ := f
  simp only [filterMatches, specFilterHolds, Bool.and_eq_true]
  constructor
  · rintro ⟨⟨⟨⟨h1, h2⟩, h3⟩, h4⟩, h5⟩
    refine ⟨fun l hl => ?_, fun l hl => ?_, fun l hl => ?_,
      fun s hs => ?_, fun u hul => ?_⟩
    · simp only at hl
      subst hl
      simpa using h1
    · simp only at hl
      subst hl
      simpa using h2
    · simp only at hl
      subst hl
      simpa using h3
    · simp only at hs
      subst hs
      rcases Bool.or_eq_true_iff.mp h4 with h | h
      · have h0 : s = 0 := by simpa using h
        omega
      · exact of_decide_eq_true h
    · simp only at hul
      subst hul
      rcases Bool.or_eq_true_iff.mp h5 with h | h
      · exact absurd (by simpa using h : u = 0)
          (fun h0 => hu (by rw [h0]))
      · exact of_decide_eq_true h
  · rintro ⟨h1, h2, h3, h4, h5⟩
    refine ⟨⟨⟨⟨?_, ?_⟩, ?_⟩, ?_⟩, ?_⟩
    · cases hids : ids with
      | none => simp
      | some l => simpa using h1 l hids
    · cases hauthors : authors with
      | none => simp
      | some l => simpa using h2 l hauthors
    · cases hkinds : kinds with
      | none => simp
      | some l => simpa using h3 l hkinds
    · cases hsince : since with
      | none => simp
      | some s =>
        have hle := h4 s hsince
        simp [hle]
    · cases huntl : untl with
      | none => simp
      | some u =>
        have hle := h5 u huntl
        simp [hle]

/-- C2 amended: live broadcast matching is OR across filters (each filter a
conjunction, per the spec reading, away from the falsy `until = 0` edge),
while the historical-store query `getEvents` selects exactly the events
satisfying the conjunction of **all** filters' clauses (AND across
filters), up to the query limit. -/
theorem C2_or_semantics :
    (∀ e fs, (∀ f ∈ fs, f.«until» ≠ some 0) →
      (eventMatchesFilters e fs = true ↔ specSubscriptionMatch e fs)) ∧
    (∀ db fs lim e, e ∈ getEvents db fs lim →
      e ∈ db.events ∧ ∀ f ∈ fs, sqlFilterClause f e = true) ∧
    (∀ db fs lim e, db.events.length ≤ lim →
      (e ∈ getEvents db fs lim ↔
        e ∈ db.events ∧ ∀ f ∈ fs, sqlFilterClause f e = true)) := by
  refine ⟨?_, ?_, ?_⟩
  · intro e fs hu
    rw [eventMatchesFilters, List.any_eq_true]
    constructor
    · rintro ⟨f, hf, hm⟩
      exact ⟨f, hf, (filterMatches_iff_spec f e (hu f hf)).mp hm⟩
    · rintro ⟨f, hf, hm⟩
      exact ⟨f, hf, (filterMatches_iff_spec f e (hu f hf)).mpr hm⟩
  · intro db fs lim e h
    exact mem_getEvents_sound h
  · intro db fs lim e hlen
    constructor
    · exact mem_getEvents_sound
    · rintro ⟨hmem, hpred⟩
      exact mem_getEvents_complete hlen hmem hpred

/-- Witness for C2 amended at concrete values: the OR equivalence on a
singleton filter list and the conjunction characterization of the store
query on the singleton store. -/
theorem C2_or_semantics_witness :
    (eventMatchesFilters c2event [{ kinds := some [1] }] = true ↔
      specSubscriptionMatch c2event [{ kinds := some [1] }]) ∧
    (c2event ∈ getEvents c2db c2filters 100 ↔
      c2event ∈ c2db.events ∧
        ∀ f ∈ c2filters, sqlFilterClause f c2event = true) :=
  ⟨C2_or_semantics.1 c2event [{ kinds := some [1] }] (by decide),
   C2_or_semantics.2.2 c2db c2filters 100 c2event (by decide)⟩

/-! ## Claim C8 -/

theorem isEose_false_broadcastEvent {st : RelayState} {e : NostrEvent} :
    ∀ m ∈ broadcastEvent st e, isEose m = false := by
  intro m hm
  obtain ⟨p, hp, heq⟩ := List.mem_filterMap.mp hm
  revert heq
  split_ifs with hmatch
  · intro heq
    rw [← Option.some.inj heq]
    rfl
  · intro heq
    exact absurd heq (by simp)

theorem isEose_false_handleResearchPaper {ws : Nat} {e : NostrEvent}
    {st : RelayState} {r : RelayState × List (Nat × RelayMsg)}
    (h : handleResearchPaper ws e st = Except.ok r) :
    ∀ m ∈ r.2, isEose m = false := by
  unfold handleResearchPaper at h
  by_cases hsize : jsGt (calculateContentSize e.content)
      (configNat st.db "max_content_size" "52428800") = true
  · rw [if_pos hsize] at h
    have hr := Except.ok.inj h
    rw [← hr]
    intro m hm
    simp only [List.mem_singleton] at hm
    subst hm
    rfl
  · rw [if_neg hsize] at h
    cases hg : paperGate st.db
        (calculatePrice st.db (calculateContentSize e.content) 1).amount_sats
        (getTagValue e.tags "payment_hash") with
    | some reason =>
      rw [hg] at h
      have hr := Except.ok.inj h
      rw [← hr]
      intro m hm
      simp only [List.mem_singleton] at hm
      subst hm
      rfl
    | none =>
      rw [hg] at h
      cases hsave : saveResearchPaper st.db (paperRecord st.db e) with
      | error msg => rw [hsave] at h; exact absurd h (by simp)
      | ok db2 =>
        rw [hsave] at h
        have hr := Except.ok.inj h
        rw [← hr]
        intro m hm
        rcases List.mem_append.mp hm with h1 | h1
        · simp only [List.mem_singleton] at h1
          subst h1
          rfl
        · exact isEose_false_broadcastEvent m h1

theorem isEose_false_handleEvent (H : List Nat → String) (ws : Nat)
    (e : NostrEvent) (st : RelayState) :
    ∀ m ∈ (handleEvent H ws e st).2, isEose m = false := by
  intro m hm
  unfold handleEvent at hm
  by_cases hv : (!(validateEventSignature H e)) = true
  · rw [if_pos hv] at hm
    simp only [List.mem_singleton] at hm
    subst hm
    rfl
  · rw [if_neg hv] at hm
    by_cases hk1 : (e.kind == 30023) = true
    · rw [if_pos hk1] at hm
      cases hr : handleResearchPaper ws e st with
      | ok r =>
        rw [hr] at hm
        exact isEose_false_handleResearchPaper hr m hm
      | error msg =>
        rw [hr] at hm
        simp only [List.mem_singleton] at hm
        subst hm
        rfl
    · rw [if_neg hk1] at hm
      by_cases hk2 : (e.kind == 9802) = true
      · rw [if_pos hk2] at hm
        unfold handleHighlight at hm
        rcases List.mem_append.mp hm with h1 | h1
        · simp only [List.mem_singleton] at h1; subst h1; rfl
        · exact isEose_false_broadcastEvent m h1
      · rw [if_neg hk2] at hm
        by_cases hk3 : (e.kind == 1) = true
        · rw [if_pos hk3] at hm
          unfold handleCommentReply at hm
          rcases List.mem_append.mp hm with h1 | h1
          · rcases List.mem_append.mp h1 with h2 | h2
            · simp only [List.mem_singleton] at h2; subst h2; rfl
            · exact isEose_false_broadcastEvent m h2
          · simp only [List.mem_singleton] at h1; subst h1; rfl
        · rw [if_neg hk3] at hm
          by_cases hk4 : (e.kind == 7) = true
          · rw [if_pos hk4] at hm
            unfold handleReaction at hm
            rcases List.mem_append.mp hm with h1 | h1
            · simp only [List.mem_singleton] at h1; subst h1; rfl
            · exact isEose_false_broadcastEvent m h1
          · rw [if_neg hk4] at hm
            by_cases hk5 : (e.kind == 1111) = true
            · rw [if_pos hk5] at hm
              unfold handleComment at hm
              rcases List.mem_cons.mp hm with h1 | h1
              · subst h1; rfl
              · simp only [List.mem_singleton] at h1; subst h1; rfl
            · rw [if_neg hk5] at hm
              unfold handleDefaultEvent at hm
              rcases List.mem_append.mp hm with h1 | h1
              · simp only [List.mem_singleton] at h1; subst h1; rfl
              · exact isEose_false_broadcastEvent m h1

/-- C8: every REQ reply on the registering connection is zero or more
EVENT messages tagged with the subscription name followed by exactly one
EOSE for that name (the EOSE is last and is the only one); over an empty
historical store the reply is the single EOSE with no EVENT; and event
submission never emits an EOSE, so no second EOSE can arrive without an
intervening re-registration. -/
theorem C8_req_single_eose :
    (∀ ws subId fs st,
      ((handleRequest ws subId fs st).2.filter isEose) =
        [(ws, RelayMsg.eose subId)] ∧
      (handleRequest ws subId fs st).2.getLast? =
        some (ws, RelayMsg.eose subId) ∧
      ∀ m ∈ (handleRequest ws subId fs st).2,
        m.1 = ws ∧ msgSubId m.2 = some subId) ∧
    (∀ ws subId fs st, st.db.events = [] →
      (handleRequest ws subId fs st).2 = [(ws, RelayMsg.eose subId)]) ∧
    (∀ H ws e st, ∀ m ∈ (handleEvent H ws e st).2, isEose m = false) := by
  refine ⟨?_, ?_, isEose_false_handleEvent⟩
  · intro ws subId fs st
    refine ⟨?_, ?_, ?_⟩
    · show (((getEvents st.db fs 100).map
          (fun ev => (ws, RelayMsg.event subId ev))) ++
            [(ws, RelayMsg.eose subId)]).filter isEose = _
      rw [List.filter_append]
      have h1 : ((getEvents st.db fs 100).map
          (fun ev => (ws, RelayMsg.event subId ev))).filter isEose = [] := by
        rw [List.filter_eq_nil]
        intro m hm
        obtain ⟨ev, -, hev⟩ := List.mem_map.mp hm
        rw [← hev]
        simp [isEose]
      rw [h1, List.nil_append]
      rfl
    · exact List.getLast?_concat _
    · intro m hm
      rcases List.mem_append.mp hm with h1 | h1
      · obtain ⟨ev, -, hev⟩ := List.mem_map.mp h1
        rw [← hev]
        exact ⟨rfl, rfl⟩
      · simp only [List.mem_singleton] at h1
        subst h1
        exact ⟨rfl, rfl⟩
  · intro ws subId fs st hempty
    have hge : getEvents st.db fs 100 = [] := by
      unfold getEvents
      rw [hempty]
      rfl
    show ((getEvents st.db fs 100).map
        (fun ev => (ws, RelayMsg.event subId ev))) ++
          [(ws, RelayMsg.eose subId)] = _
    rw [hge]
    rfl

/-- Witness for C8 at a fresh subscription over the empty store. -/
theorem C8_req_single_eose_witness :
    ((handleRequest 0 "s1" [] emptyState).2.filter isEose) =
      [(0, RelayMsg.eose "s1")] ∧
    (handleRequest 0 "s1" [] emptyState).2 = [(0, RelayMsg.eose "s1")] :=
  ⟨(C8_req_single_eose.1 0 "s1" [] emptyState).1,
   C8_req_single_eose.2.1 0 "s1" [] emptyState rfl⟩

/-! ## Claim C10 -/

/-- C10: the subscription registry is keyed by name alone.  If connection A
holds subscription `n` and connection B issues a REQ with the same name,
the registry entry for `n` becomes B's; every broadcast delivery tagged
`n` afterwards goes to B; and a CLOSE for `n` arriving on any connection
removes the subscription. -/
theorem C10_registry_keyed_by_name (A B : Nat) (n : String)
    (fsA fsB : List NostrFilter) (st : RelayState)
    (hA : mapLookup st.subs n = some ⟨A, fsA⟩) :
    mapLookup ((handleRequest B n fsB st).1).subs n = some ⟨B, fsB⟩ ∧
    (∀ e c, (c, RelayMsg.event n e) ∈
        broadcastEvent ((handleRequest B n fsB st).1) e → c = B) ∧
    (∀ ws, mapLookup
      ((handleClose ws n ((handleRequest B n fsB st).1)).subs) n = none) := by
  refine ⟨mapLookup_mapSet st.subs n ⟨B, fsB⟩, ?_, ?_⟩
  · intro e c hm
    obtain ⟨p, hp, heq⟩ := List.mem_filterMap.mp hm
    revert heq
    split_ifs with hmatch
    · intro heq
      have heq2 := Option.some.inj heq
      have hc : p.2.conn = c := congrArg Prod.fst heq2
      have hn : RelayMsg.event p.1 e = RelayMsg.event n e := congrArg Prod.snd heq2
      have hpn : p.1 = n := by injection hn
      rcases mem_mapSet hp with hq | ⟨-, hne⟩
      · rw [← hc, hq]
      · exact absurd hpn hne
    · intro heq
      exact absurd heq (by simp)
  · intro ws
    exact mapLookup_mapDelete _ n

/-- State with a subscription held by connection 0, for the C10 witness. -/
def c10state : RelayState :=
  { db := {}, subs := [("s1", ⟨0, []⟩)] }

/-- Witness for C10: connection 1 takes over the name registered by
connection 0, deliveries for it go only to connection 1, and a CLOSE from
any connection removes it. -/
theorem C10_registry_keyed_by_name_witness :
    mapLookup ((handleRequest 1 "s1" [] c10state).1).subs "s1" =
      some ⟨1, []⟩ ∧
    (∀ e c, (c, RelayMsg.event "s1" e) ∈
        broadcastEvent ((handleRequest 1 "s1" [] c10state).1) e → c = 1) ∧
    (∀ ws, mapLookup
      ((handleClose ws "s1" ((handleRequest 1 "s1" [] c10state).1)).subs)
        "s1" = none) :=
  C10_registry_keyed_by_name 0 1 "s1" [] [] c10state (by decide)

/-! ## Claim C1 -/

/-- The claim's admission condition: a payment reference is attached, its
invoice exists, is paid, and covers the quoted amount. -/
def paymentSatisfied (db : DB) (ph : Option String) (a : Nat) : Prop :=
  ∃ phv inv, ph = some phv ∧ phv ≠ "" ∧ getInvoice db phv = some inv ∧
    inv.paid = true ∧ a ≤ inv.amount_sats

/-- The payment gate admits exactly when the payment is satisfied (for a
positive quoted amount). -/
theorem paperGate_none_iff {db : DB} {a : Nat} {ph : Option String}
    (ha : 0 < a) :
    paperGate db (some a) ph = none ↔ paymentSatisfied db ph a := by
  have hpos : jsPos (some a) = true := by simp [jsPos, ha]
  unfold paperGate paymentSatisfied
  rw [if_pos hpos]
  cases ph with
  | none => simp [strTruthy]
  | some s =>
    by_cases hs : s = ""
    · subst hs
      simp [strTruthy]
    · have hst : strTruthy (some s) = true := by simp [strTruthy, hs]
      rw [hst]
      simp only [Bool.not_true, Bool.false_eq_true, if_false, Option.getD_some]
      cases hi : getInvoice db s with
      | none =>
        constructor
        · intro hcontra
          exact absurd hcontra (by simp)
        · rintro ⟨phv, inv2, hph, -, hinv2, -, -⟩
          injection hph with hsv
          subst hsv
          rw [hi] at hinv2
          exact absurd hinv2 (by simp)
      | some inv =>
        by_cases hp : inv.paid = true
        · by_cases hlt : inv.amount_sats < a
          · have hjs : jsLt inv.amount_sats (some a) = true := by
              simp [jsLt, hlt]
            simp only [hp, Bool.not_true, Bool.false_eq_true, if_false, hjs,
              if_true]
            constructor
            · intro hcontra
              exact absurd hcontra (by simp)
            · rintro ⟨phv, inv2, hph, -, hinv2, -, hle⟩
              injection hph with hsv
              subst hsv
              rw [hi] at hinv2
              injection hinv2 with hiv
              subst hiv
              omega
          · have hjs : jsLt inv.amount_sats (some a) = false := by
              simp [jsLt]
              omega
            simp only [hp, Bool.not_true, Bool.false_eq_true, if_false, hjs]
            constructor
            · intro _
              exact ⟨s, inv, rfl, hs, hi, hp, by omega⟩
            · intro _
              trivial
        · have hp2 : inv.paid = false := by
            cases hpb : inv.paid
            · rfl
            · exact absurd hpb hp
          simp only [hp2, Bool.not_false, if_true]
          constructor
          · intro hcontra
            exact absurd hcontra (by simp)
          · rintro ⟨phv, inv2, hph, -, hinv2, hpaid, -⟩
            injection hph with hsv
            subst hsv
            rw [hi] at hinv2
            injection hinv2 with hiv
            subst hiv
            exact absurd hpaid hp

theorem storageSavePaper_db (st : RelayState) (eid : String) :
    (storageSavePaper st eid).db = st.db := by
  unfold storageSavePaper
  split_ifs <;> rfl

theorem storageSaveComment_db (st : RelayState) (eid : String) :
    (storageSaveComment st eid).db = st.db := by
  unfold storageSaveComment
  split_ifs <;> rfl

theorem afterPaperSave_db (st : RelayState) (db2 : DB) (e : NostrEvent) :
    (afterPaperSave st db2 e).db = saveEvent db2 e := by
  unfold afterPaperSave
  rw [storageSavePaper_db]

/-- After `saveEvent`, an event with the saved id is stored. -/
theorem exists_id_saveEvent (db : DB) (e : NostrEvent) :
    ∃ x ∈ (saveEvent db e).events, x.id = e.id := by
  unfold saveEvent
  split_ifs with hany
  · obtain ⟨x, hx, hbeq⟩ := List.any_eq_true.mp hany
    exact ⟨x, hx, eq_of_beq hbeq⟩
  · exact ⟨e, by simp, rfl⟩

/-- C1 amended, paper side: for a kind-30023 event passing signature and
size checks, with a positive quoted amount `a` (the flat rate) and no
pre-existing paper record for its id, admission succeeds iff a payment
reference is attached whose invoice exists, is paid, and covers `a`; each
failure mode yields `OK(id, false, reason)` with the corresponding reason
and no state change; and a successful admission stores an event with the
submitted id. -/
theorem C1_paper_payment_gate (H : List Nat → String) (ws : Nat)
    (e : NostrEvent) (st : RelayState) (a : Nat)
    (hk : e.kind = 30023)
    (hv : validateEventSignature H e = true)
    (hsize : jsGt (calculateContentSize e.content)
      (configNat st.db "max_content_size" "52428800") = false)
    (hA : configNat st.db "flat_rate_sats" "1" = some a)
    (ha : 0 < a)
    (hnodup : st.db.research_papers.all
      (fun p => !(p.event_id == e.id)) = true) :
    (okSuccess (handleEvent H ws e st).2 e.id = true ↔
      paymentSatisfied st.db (getTagValue e.tags "payment_hash") a) ∧
    (okSuccess (handleEvent H ws e st).2 e.id = true →
      ∃ x ∈ (handleEvent H ws e st).1.db.events, x.id = e.id) ∧
    (strTruthy (getTagValue e.tags "payment_hash") = false →
      handleEvent H ws e st = (st, [(ws, RelayMsg.ok e.id false
        ("Payment required: " ++ toString a ++
          " sats. Create invoice first."))])) ∧
    (∀ phv, getTagValue e.tags "payment_hash" = some phv → phv ≠ "" →
      getInvoice st.db phv = none →
      handleEvent H ws e st =
        (st, [(ws, RelayMsg.ok e.id false "Invalid payment hash")])) ∧
    (∀ phv inv, getTagValue e.tags "payment_hash" = some phv → phv ≠ "" →
      getInvoice st.db phv = some inv → inv.paid = false →
      handleEvent H ws e st =
        (st, [(ws, RelayMsg.ok e.id false "Payment not completed")])) ∧
    (∀ phv inv, getTagValue e.tags "payment_hash" = some phv → phv ≠ "" →
      getInvoice st.db phv = some inv → inv.paid = true →
      inv.amount_sats < a →
      handleEvent H ws e st =
        (st, [(ws, RelayMsg.ok e.id false "Insufficient payment amount")])) := by
  have hcp : (calculatePrice st.db (calculateContentSize e.content) 1).amount_sats
      = some a := hA
  have hdisp : handleEvent H ws e st =
      (match handleResearchPaper ws e st with
       | Except.ok r => r
       | Except.error _ => (st, [(ws, RelayMsg.ok e.id false "Server error")])) := by
    unfold handleEvent
    rw [hv]
    rw [if_neg (by simp)]
    rw [if_pos (by simp [hk])]
  have hrp : ∀ X, paperGate st.db (some a) (getTagValue e.tags "payment_hash") = X →
      handleResearchPaper ws e st =
        (match X with
         | some reason => Except.ok (st, [(ws, RelayMsg.ok e.id false reason)])
         | none =>
           match saveResearchPaper st.db (paperRecord st.db e) with
           | Except.error msg => Except.error msg
           | Except.ok db2 =>
             Except.ok (afterPaperSave st db2 e,
               [(ws, RelayMsg.ok e.id true "Paper published successfully")] ++
                 broadcastEvent (afterPaperSave st db2 e) e)) := by
    intro X hX
    unfold handleResearchPaper
    rw [if_neg (by simp [hsize])]
    rw [hcp, hX]
  have hsaveok : saveResearchPaper st.db (paperRecord st.db e) =
      Except.ok { st.db with research_papers :=
        st.db.research_papers ++ [paperRecord st.db e] } := by
    unfold saveResearchPaper
    rw [if_neg]
    intro hany
    obtain ⟨p, hp, hbeq⟩ := List.any_eq_true.mp hany
    have hall := List.all_eq_true.mp hnodup p hp
    rw [show (paperRecord st.db e).event_id = e.id from rfl] at hbeq
    rw [hbeq] at hall
    exact absurd hall (by simp)
  have hjp : jsPos (some a) = true := by simp [jsPos, ha]
  refine ⟨?_, ?_, ?_, ?_, ?_, ?_⟩
  · -- success iff payment satisfied
    cases hg : paperGate st.db (some a) (getTagValue e.tags "payment_hash") with
    | some reason =>
      have heq := hrp _ hg
      rw [hdisp, heq]
      constructor
      · intro hok
        exfalso
        revert hok
        simp [okSuccess]
      · intro hsat
        exact absurd hg (by
          rw [(paperGate_none_iff ha).mpr hsat]
          simp)
    | none =>
      have heq := hrp _ hg
      rw [hdisp, heq, hsaveok]
      constructor
      · intro _
        exact (paperGate_none_iff ha).mp hg
      · intro _
        simp [okSuccess]
  · -- success stores the event id
    cases hg : paperGate st.db (some a) (getTagValue e.tags "payment_hash") with
    | some reason =>
      have heq := hrp _ hg
      rw [hdisp, heq]
      intro hok
      exfalso
      revert hok
      simp [okSuccess]
    | none =>
      have heq := hrp _ hg
      rw [hdisp, heq, hsaveok]
      intro _
      simp only
      rw [afterPaperSave_db]
      exact exists_id_saveEvent _ e
  · -- no payment reference
    intro hph
    have hg : paperGate st.db (some a) (getTagValue e.tags "payment_hash") =
        some ("Payment required: " ++ amountStr (some a) ++
          " sats. Create invoice first.") := by
      unfold paperGate
      rw [if_pos hjp, if_pos (by simp [hph])]
    rw [hdisp, hrp _ hg]
    rfl
  · -- missing invoice
    intro phv hph hne hinv
    have hg : paperGate st.db (some a) (getTagValue e.tags "payment_hash") =
        some "Invalid payment hash" := by
      unfold paperGate
      rw [if_pos hjp]
      rw [hph]
      rw [if_neg (by simp [strTruthy, hne])]
      simp only [Option.getD_some]
      rw [hinv]
    rw [hdisp, hrp _ hg]
  · -- unpaid invoice
    intro phv inv hph hne hinv hpaid
    have hg : paperGate st.db (some a) (getTagValue e.tags "payment_hash") =
        some "Payment not completed" := by
      unfold paperGate
      rw [if_pos hjp]
      rw [hph]
      rw [if_neg (by simp [strTruthy, hne])]
      simp only [Option.getD_some]
      rw [hinv]
      simp only [hpaid, Bool.not_false, if_true]
    rw [hdisp, hrp _ hg]
  · -- insufficient amount
    intro phv inv hph hne hinv hpaid hlt
    have hg : paperGate st.db (some a) (getTagValue e.tags "payment_hash") =
        some "Insufficient payment amount" := by
      unfold paperGate
      rw [if_pos hjp]
      rw [hph]
      rw [if_neg (by simp [strTruthy, hne])]
      simp only [Option.getD_some]
      rw [hinv]
      simp only [hpaid, Bool.not_true, Bool.false_eq_true, if_false]
      rw [if_pos (by simp [jsLt, hlt])]
    rw [hdisp, hrp _ hg]

/-- Base fields of a valid priced comment (kind 1111) with no payment
reference. -/
def c1commentBase : NostrEvent :=
  { id := "", pubkey := "p", created_at := 1, kind := 1111, tags := [],
    content := "x", sig := "s" }

/-- The comment with a correct hash under `demoDigest`. -/
def c1comment : NostrEvent :=
  { c1commentBase with id := demoDigest (serializeEvent c1commentBase) }

set_option maxRecDepth 4000 in
/-- C1 counterexample: a valid event of the priced comment kind (1111) with
a positive quoted amount and **no** payment reference is nevertheless
admitted — the relay stores it and replies `OK(id, true)` — refuting the
claimed equivalence for priced kinds. -/
theorem C1_counterexample :
    jsPos (calculateCommentPrice emptyState.db
      (calculateContentSize c1comment.content)).amount_sats = true ∧
    getTagValue c1comment.tags "payment_hash" = none ∧
    validateEventSignature demoDigest c1comment = true ∧
    okSuccess (handleEvent demoDigest 0 c1comment emptyState).2
      c1comment.id = true ∧
    (handleEvent demoDigest 0 c1comment emptyState).1.db.events =
      [c1comment] := by decide

/-- Base fields of a valid paper submission without a payment reference. -/
def wPaperBase : NostrEvent :=
  { id := "", pubkey := "pk", created_at := 5, kind := 30023, tags := [],
    content := "c", sig := "sg" }

/-- The paper event with a correct hash under `demoDigest`. -/
def wPaper : NostrEvent :=
  { wPaperBase with id := demoDigest (serializeEvent wPaperBase) }

set_option maxRecDepth 4000 in
/-- Witness for C1 amended: the concrete valid paper submission without a
payment reference is rejected with the quoted amount in the reason. -/
theorem C1_paper_payment_gate_witness :
    handleEvent demoDigest 0 wPaper emptyState =
      (emptyState, [(0, RelayMsg.ok wPaper.id false
        ("Payment required: " ++ toString 1 ++
          " sats. Create invoice first."))]) :=
  (C1_paper_payment_gate demoDigest 0 wPaper emptyState 1 rfl (by decide)
    (by decide) (by decide) (by decide) (by decide)).2.2.1 (by decide)

/-! ## Claim C4 -/

/-- A settled invoice covering the flat rate. -/
def c4invoice : LightningInvoice :=
  { payment_hash := "ph1", payment_request := "req", amount_sats := 1,
    description := "", expires_at := 10, paid := true, paid_at := some 1 }

/-- Base fields of a valid paid paper submission. -/
def c4base : NostrEvent :=
  { id := "", pubkey := "pk", created_at := 5, kind := 30023,
    tags := [["payment_hash", "ph1"]], content := "c", sig := "sg" }

/-- The paid paper event with a correct hash under `demoDigest`. -/
def c4event : NostrEvent :=
  { c4base with id := demoDigest (serializeEvent c4base) }

/-- Relay state holding the settled invoice. -/
def c4state : RelayState := { db := { lightning_invoices := [c4invoice] } }

set_option maxRecDepth 4000 in
/-- C4: admission of a paper is **not** idempotent.  The first submission
of the valid, paid kind-30023 event is admitted with `OK(id, true)`; the
identical second submission hits the `UNIQUE` constraint on
`research_papers.event_id`, whose rejected insert is caught and answered
`OK(id, false, 'Server error')` instead of the required `OK(true)` —
though no duplicate row is created in either store. -/
theorem C4_resubmission_server_error :
    (handleEvent demoDigest 0 c4event c4state).2 =
      [(0, RelayMsg.ok c4event.id true "Paper published successfully")] ∧
    handleEvent demoDigest 0 c4event
        ((handleEvent demoDigest 0 c4event c4state).1) =
      ((handleEvent demoDigest 0 c4event c4state).1,
        [(0, RelayMsg.ok c4event.id false "Server error")]) ∧
    ((handleEvent demoDigest 0 c4event c4state).1).db.events.length = 1 ∧
    ((handleEvent demoDigest 0 c4event c4state).1).db.research_papers.length
      = 1 := by decide

end Relay
